import Mathlib

/-!
Verification of the infracost price-resolution / cost-computation pipeline.

The Go sources embedded here are:
* `cmd/infracost/run.go` — `runMain`, `loadRunFlags`, `unwrapped`;
* `internal/resources/aws` EIP builder — `EIP.BuildResource`.

Decimals (shopspring/decimal, arbitrary-precision) are modelled as `ℚ`;
Go `nil` pointers as `Option`; Go errors as the inductive `GoError`.
External collaborators (providers, usage loader, renderers) are fields of an
environment record so that `runMain`'s control flow is embedded exactly.
-/

namespace Infracost

/-- Go `error` values: a base error (`errors.New`), a wrapping error
(`github.com/pkg/errors.Wrap`: its `Error()` is `msg ++ ": " ++ cause.Error()`
and `errors.Unwrap` yields the cause), and the `*prices.PricingAPIError`
concrete type (distinguished because `runMain` type-asserts on it). -/
inductive GoError where
  | base (msg : String)
  | wrap (msg : String) (cause : GoError)
  | pricingAPI (msg : String)
  deriving DecidableEq, Repr

/-- Go `errors.Unwrap`: the wrapped cause, or none. -/
def GoError.unwrap : GoError → Option GoError
  | .wrap _ c => some c
  | _ => none

/-- Go `Error()` string. -/
def GoError.message : GoError → String
  | .base m => m
  | .pricingAPI m => m
  | .wrap m c => m ++ ": " ++ c.message

/-- Go `errors.Is`: walks the Unwrap chain comparing against the target sentinel. -/
def errorsIs : GoError → GoError → Bool
  | .wrap m c, t => (GoError.wrap m c = t) || errorsIs c t
  | e, t => e = t

/-- The `unwrapped` helper from `cmd/infracost/run.go`: follow `errors.Unwrap`
until it returns nil, yielding the deepest (root-cause) error. -/
def unwrapped : GoError → GoError
  | .wrap _ c => unwrapped c
  | e => e

/-- The chain of errors reachable from `e` by repeated `errors.Unwrap`,
starting with `e` itself. -/
def GoError.chain : GoError → List GoError
  | .wrap m c => .wrap m c :: c.chain
  | e => [e]

/-! ### Cost model (internal/schema), as used by the sources under scrutiny -/

/-- An attribute matcher inside a `ProductFilter`. -/
structure AttributeFilter where
  Key : String := ""
  Value : Option String := none
  ValueRegex : Option String := none
  deriving DecidableEq, Repr

/-- Criteria identifying the priced product in the catalog. -/
structure ProductFilter where
  VendorName : Option String := none
  Region : Option String := none
  Service : Option String := none
  ProductFamily : Option String := none
  AttributeFilters : List AttributeFilter := []
  deriving DecidableEq, Repr

/-- Criteria narrowing to a specific price point. -/
structure PriceFilter where
  PurchaseOption : Option String := none
  Unit : Option String := none
  Term : Option String := none
  StartUsageAmount : Option String := none
  EndUsageAmount : Option String := none
  deriving DecidableEq, Repr

/-- A single priced line item within a resource.  Unset Go fields take their
zero values (`nil` pointer ↦ `none`).  `Price`/`Unresolved` are the resolved
state written by the price resolver. -/
structure CostComponent where
  Name : String := ""
  Unit : String := ""
  UnitMultiplier : ℚ := 0
  HourlyQuantity : Option ℚ := none
  MonthlyQuantity : Option ℚ := none
  ProductFilter : Option ProductFilter := none
  PriceFilter : Option PriceFilter := none
  Price : Option ℚ := none
  Unresolved : Bool := false
  deriving DecidableEq, Repr

/-- An entry of a resource's usage schema. -/
structure UsageItem where
  Key : String := ""
  DefaultValue : ℚ := 0
  deriving DecidableEq, Repr

/-- A leaf resource of the cost model (the EIP builder produces leaves;
sub-resources are not needed for the claims below). -/
structure Resource where
  Name : String := ""
  CostComponents : List CostComponent := []
  NoPrice : Bool := false
  IsSkipped : Bool := false
  UsageSchema : List UsageItem := []
  deriving DecidableEq, Repr

/-- The `strPtr` helper from the aws resource package. -/
def strPtr (s : String) : Option String := some s

/-- The `decimalPtr` helper from the aws resource package. -/
def decimalPtr (d : ℚ) : Option ℚ := some d

/-! ### The EIP resource builder (internal/resources/aws/eip.go) -/

/-- The `aws.EIP` resource arguments. -/
structure EIP where
  Address : String := ""
  Region : String := ""
  CustomerOwnedIPv4Pool : String := ""
  Instance : String := ""
  NetworkInterface : String := ""
  deriving DecidableEq, Repr

/-- The `EIPUsageSchema` value — the (empty) usage schema of an EIP. -/
def EIPUsageSchema : List UsageItem := []

/-- The builder `EIP.BuildResource`, translated line by line from the source. -/
def EIP.BuildResource (r : EIP) : Resource :=
  if r.CustomerOwnedIPv4Pool ≠ "" ∨ r.Instance ≠ "" ∨ r.NetworkInterface ≠ "" then
    { Name := r.Address
      NoPrice := true
      IsSkipped := true
      UsageSchema := EIPUsageSchema }
  else
    { Name := r.Address
      CostComponents :=
        [{ Name := "IP address (if unused)"
           Unit := "hours"
           UnitMultiplier := 1
           HourlyQuantity := decimalPtr 1
           ProductFilter := some
             { VendorName := strPtr "aws"
               Region := strPtr r.Region
               Service := strPtr "AmazonEC2"
               ProductFamily := strPtr "IP Address"
               AttributeFilters :=
                 [{ Key := "usagetype", ValueRegex := strPtr "/ElasticIP:IdleAddress/" }] }
           PriceFilter := some { StartUsageAmount := strPtr "1" } }]
      UsageSchema := EIPUsageSchema }

/-! ### Run flags (cmd/infracost/run.go, loadRunFlags) -/

/-- Which command-line flags were set (`cmd.Flags().Changed(...)`). -/
structure RunFlags where
  configFileChanged : Bool := false
  pathChanged : Bool := false
  terraformPlanFlagsChanged : Bool := false
  usageFileChanged : Bool := false
  formatChanged : Bool := false
  showSkippedChanged : Bool := false
  deriving DecidableEq, Repr

/-- Outcome of the flag-compatibility check at the top of `loadRunFlags`:
either `ui.PrintUsageErrorAndExit` fires (process exits with a usage error),
or the function proceeds to load configuration (the subsequent config-file /
env loading is external `config` package I/O, driven by the three booleans
recorded here). -/
inductive RunFlagsOutcome where
  | usageError (msg : String)
  | proceed (hasConfigFile hasProjectFlags hasOutputFlags : Bool)
  deriving DecidableEq, Repr

/-- The function `loadRunFlags`, embedded up to its interaction with the external config
loader: computes the three flag groups exactly as the source does and decides
whether the usage-error exit fires. -/
def loadRunFlags (f : RunFlags) : RunFlagsOutcome :=
  let hasConfigFile := f.configFileChanged
  let hasProjectFlags :=
    f.pathChanged || f.terraformPlanFlagsChanged || f.usageFileChanged
  let hasOutputFlags := f.formatChanged || f.showSkippedChanged
  if hasConfigFile && hasProjectFlags then
    .usageError "--config-file flag cannot be used with other project and output flags"
  else
    .proceed hasConfigFile hasProjectFlags hasOutputFlags

/-- Whether `loadRunFlags` rejected the invocation. -/
def RunFlagsOutcome.isUsageError : RunFlagsOutcome → Bool
  | .usageError _ => true
  | .proceed _ _ _ => false

/-! ### runMain (cmd/infracost/run.go) -/

/-- A terraform project configuration entry (internal/config). -/
structure TerraformProject where
  Path : String := ""
  PlanFlags : String := ""
  UsageFile : String := ""
  UseState : Bool := false
  deriving DecidableEq, Repr

/-- An output configuration entry (internal/config). -/
structure OutputConfig where
  Format : String := ""
  ShowSkipped : Bool := false
  Path : String := ""
  deriving DecidableEq, Repr

/-- The slice of `config.Config` that `runMain` reads. -/
structure Config where
  projects : List TerraformProject := []
  outputs : List OutputConfig := []
  noColor : Bool := false

/-- A loaded project: the tree of resources produced by the provider. -/
structure Project where
  resources : List Resource := []
  deriving DecidableEq, Repr

/-- Rendering options (internal/output.Options). -/
structure Options where
  showSkipped : Bool := false
  noColor : Bool := false
  deriving DecidableEq, Repr

/-- The combined output root produced by `output.ToOutputFormat`. -/
structure OutputRoot where
  projects : List Project := []
  deriving DecidableEq, Repr

/-- The helper `ui.PrimaryString` colours its argument for the terminal; modelled as
wrapping the text in fixed (possibly empty) escape strings. -/
structure UIStyle where
  pre : String := ""
  post : String := ""

/-- Apply the primary style to a string. -/
def UIStyle.primaryString (st : UIStyle) (s : String) : String :=
  st.pre ++ s ++ st.post

/-- Modelled from the spec: the `InvalidCredential` error kind — the sentinel
`prices.ErrInvalidAPIKey` of the (external) pricing package, a plain base
error that callers compare against with `errors.Is`. -/
def ErrInvalidAPIKey : GoError := .base "Invalid API key"

/-- One step of `runMain`'s observable pipeline, indexed by the project (or
output) position.  An event records that the call was made, whether or not it
succeeded. -/
inductive Event where
  | detect (i : Nat)
  | loadUsage (i : Nat)
  | loadResources (i : Nat)
  | populatePrices (i : Nat)
  | calculateCosts (i : Nat)
  | calculateDiff (i : Nat)
  | toOutputFormat
  | renderOutput (j : Nat)
  | writeOutputFile (j : Nat)
  | printOutput (j : Nat)
  deriving DecidableEq, Repr

/-- The external collaborators `runMain` calls: provider detection and
loading, usage-file loading, price resolution, cost calculation, diffing and
output rendering, plus the credentials-file path and the terminal style used
in the invalid-API-key message. -/
structure RunEnv where
  detect : TerraformProject → Option String
  loadUsageFile : String → Except GoError (List (String × String))
  loadResources : TerraformProject → List (String × String) → Except GoError Project
  populatePrices : Project → Except GoError Project
  calculateCosts : Project → Project
  calculateDiff : Project → Project
  toOutputFormat : List Project → OutputRoot
  toJSON : OutputRoot → Options → Except GoError String
  toHTML : OutputRoot → Options → Except GoError String
  toDiff : OutputRoot → Options → Except GoError String
  toTableDeprecated : OutputRoot → Options → Except GoError String
  toTable : OutputRoot → Options → Except GoError String
  writeFile : String → String → Except GoError Unit
  credentialsFilePath : String
  style : UIStyle

/-- The first loop of `runMain` (lines 67–96): for each configured project,
detect the provider, load the usage file, then load resources; the first
error aborts.  `i` numbers the projects for the event trace. -/
def loadProjects (env : RunEnv) : List TerraformProject → Nat →
    List Event × Except GoError (List Project)
  | [], _ => ([], .ok [])
  | pc :: rest, i =>
    match env.detect pc with
    | none => ([.detect i], .error (.base "Could not detect path type"))
    | some _ =>
      match env.loadUsageFile pc.UsageFile with
      | .error e => ([.detect i, .loadUsage i], .error e)
      | .ok u =>
        match env.loadResources pc u with
        | .error e => ([.detect i, .loadUsage i, .loadResources i], .error e)
        | .ok proj =>
          let tail := loadProjects env rest (i + 1)
          (.detect i :: .loadUsage i :: .loadResources i :: tail.1,
           match tail.2 with
           | .error e => .error e
           | .ok ps => .ok (proj :: ps))

/-- The error message `runMain` builds when the fully unwrapped pricing error
is `ErrInvalidAPIKey` (run.go lines 110–118). -/
def invalidAPIKeyMessage (e : GoError) (credPath : String) (st : UIStyle) : String :=
  e.message ++ "\n" ++ "Please check your" ++ " " ++ st.primaryString credPath ++ " " ++
    "file or" ++ " " ++ st.primaryString "INFRACOST_API_KEY" ++ " " ++
    "environment variable." ++ "\n" ++
    "If you continue having issues please email hello@infracost.io"

/-- How `runMain` translates a `PopulatePrices` failure (lines 109–125): an
`ErrInvalidAPIKey` root cause becomes the credentials-guidance message, a
top-level `*PricingAPIError` gets the notification suffix, anything else is
returned as-is. -/
def translatePricingError (env : RunEnv) (err : GoError) : GoError :=
  if errorsIs (unwrapped err) ErrInvalidAPIKey then
    .base (invalidAPIKeyMessage (unwrapped err) env.credentialsFilePath env.style)
  else
    match err with
    | .pricingAPI m => .base (m ++ "\n" ++ "We have been notified of this issue.")
    | _ => err

/-- The second loop of `runMain` (lines 104–130): populate prices for each
project; on failure translate the error exactly as the source does and abort;
on success calculate costs and the diff and continue. -/
def pricesPhase (env : RunEnv) : List Project → Nat →
    List Event × Except GoError (List Project)
  | [], _ => ([], .ok [])
  | p :: rest, i =>
    match env.populatePrices p with
    | .error err => ([.populatePrices i], .error (translatePricingError env err))
    | .ok p1 =>
      let p2 := env.calculateCosts p1
      let p3 := env.calculateDiff p2
      let tail := pricesPhase env rest (i + 1)
      (.populatePrices i :: .calculateCosts i :: .calculateDiff i :: tail.1,
       match tail.2 with
       | .error e => .error e
       | .ok ps => .ok (p3 :: ps))

/-- The format switch of `runMain`'s output loop (lines 150–166):
`strings.ToLower` on the format, a `switch` defaulting to the table renderer,
and the `out` string each branch builds from the rendered bytes. -/
def renderFor (env : RunEnv) (r : OutputRoot) (opts : Options) (format : String) :
    Except GoError String :=
  match format.toLower with
  | "json" => env.toJSON r opts
  | "html" => env.toHTML r opts
  | "diff" =>
    match env.toDiff r opts with
    | .error e => .error e
    | .ok b => .ok ("\n" ++ b)
  | "table_deprecated" =>
    match env.toTableDeprecated r opts with
    | .error e => .error e
    | .ok b => .ok ("\n" ++ b)
  | _ =>
    match env.toTable r opts with
    | .error e => .error e
    | .ok b => .ok ("\n" ++ b)

/-- The output loop of `runMain` (lines 136–180): render each configured
output, wrapping render errors as "Error generating output"; write to the
configured path when one is set (wrapping failures as "Error saving output"),
otherwise print to stdout. -/
def outputPhase (env : RunEnv) (r : OutputRoot) (noColor : Bool) :
    List OutputConfig → Nat → List Event × Option GoError
  | [], _ => ([], none)
  | oc :: rest, j =>
    let opts : Options := { showSkipped := oc.ShowSkipped, noColor := noColor }
    match renderFor env r opts oc.Format with
    | .error e => ([.renderOutput j], some (.wrap "Error generating output" e))
    | .ok out =>
      if oc.Path ≠ "" then
        match env.writeFile oc.Path out with
        | .error e =>
          ([.renderOutput j, .writeOutputFile j], some (.wrap "Error saving output" e))
        | .ok _ =>
          let tail := outputPhase env r noColor rest (j + 1)
          (.renderOutput j :: .writeOutputFile j :: tail.1, tail.2)
      else
        let tail := outputPhase env r noColor rest (j + 1)
        (.renderOutput j :: .printOutput j :: tail.1, tail.2)

/-- The function `runMain` (cmd/infracost/run.go lines 64–183): load all projects, resolve
prices and compute costs/diffs per project, convert the projects to the
output root, then render every configured output.  Returns the event trace
together with the Go return value (`none` = nil error).  Spinner and logging
side effects carry no data and are omitted from the trace. -/
def runMain (env : RunEnv) (cfg : Config) : List Event × Option GoError :=
  let l := loadProjects env cfg.projects 0
  match l.2 with
  | .error e => (l.1, some e)
  | .ok projs =>
    let pp := pricesPhase env projs 0
    match pp.2 with
    | .error e => (l.1 ++ pp.1, some e)
    | .ok projs2 =>
      let r := env.toOutputFormat projs2
      let op := outputPhase env r cfg.noColor cfg.outputs 0
      (l.1 ++ pp.1 ++ Event.toOutputFormat :: op.1, op.2)

/-! ### Price resolver and cost calculator, modelled from the spec

`internal/prices.PopulatePrices` and `internal/schema.CalculateCosts` are not
among the sources at hand (only their caller `runMain` is), so they are
modelled from the specification (§4.1 Price Resolver, §4.2 Cost Calculator,
§7 error kinds). -/

/-- The Filter Key: canonical pairing of a component's two filters, used for
deduplication and caching. -/
abbrev FilterKey := Option ProductFilter × Option PriceFilter

/-- The Filter Key of a cost component. -/
def filterKey (c : CostComponent) : FilterKey :=
  (c.ProductFilter, c.PriceFilter)

/-- Modelled from the spec: the outcome the pricing catalog reports for one
Filter Key — a matched unit price, an explicit no-match, a retryable
catalog-side failure (`CatalogUnavailable`/`Timeout` after the retry budget
is exhausted), or an invalid-credential failure. -/
inductive CatalogResult where
  | price (p : ℚ)
  | noMatch
  | retryableError
  | invalidCredential
  deriving DecidableEq, Repr

/-- Every cost component of a project, in traversal order. -/
def allComponents (proj : Project) : List CostComponent :=
  (proj.resources.map Resource.CostComponents).flatten

/-- Modelled from the spec (§4.1 steps 1–3): the distinct Filter Keys sent to
the catalog in one resolution call — collect every component's key, then
deduplicate, so each key is queried at most once. -/
def resolverQueries (proj : Project) : List FilterKey :=
  ((allComponents proj).map filterKey).dedup

/-- Modelled from the spec (§4.1 step 5, §7): the write-back of one catalog
outcome into a component — a matched price resolves the component, a
no-match or a retryable failure marks it unresolved, never an error. -/
def resolveComponent (catalog : FilterKey → CatalogResult) (c : CostComponent) :
    CostComponent :=
  match catalog (filterKey c) with
  | .price p => { c with Price := some p, Unresolved := false }
  | .noMatch => { c with Price := none, Unresolved := true }
  | .retryableError => { c with Price := none, Unresolved := true }
  | .invalidCredential => c

/-- Modelled from the spec: `prices.PopulatePrices` — an invalid credential
on any queried key aborts the whole call with an error whose root cause is
`ErrInvalidAPIKey`; every other catalog outcome is absorbed into
per-component resolved state. -/
def specPopulatePrices (catalog : FilterKey → CatalogResult) (proj : Project) :
    Except GoError Project :=
  if (resolverQueries proj).any (fun k => catalog k == CatalogResult.invalidCredential) then
    .error (.wrap "Error retrieving prices" ErrInvalidAPIKey)
  else
    .ok { resources := proj.resources.map fun r =>
            { r with CostComponents := r.CostComponents.map (resolveComponent catalog) } }

/-- Modelled from the spec (§4.2): the fixed hours-per-month constant. -/
def HOURS_PER_MONTH : ℚ := 730

/-- Modelled from the spec (§4.2): the Cost Calculator's per-component rule.
Returns `(HourlyCost, MonthlyCost)`; `none` is the defined "unresolved" /
"no usage data" state, distinct from a numeric zero. -/
def componentCosts (c : CostComponent) : Option ℚ × Option ℚ :=
  match c.Price, c.HourlyQuantity, c.MonthlyQuantity with
  | some p, some q, _ =>
    let hourly := p * c.UnitMultiplier * q
    (some hourly, some (hourly * HOURS_PER_MONTH))
  | some p, none, some q =>
    let monthly := p * c.UnitMultiplier * q
    (some (monthly / HOURS_PER_MONTH), some monthly)
  | _, _, _ => (none, none)

/-! ### Witness fixtures -/

/-- A catalog that prices every key at 4/100. -/
def fixedCatalog : FilterKey → CatalogResult := fun _ => .price (4 / 100)

/-- Two components sharing the same (default) filters, in one resource. -/
def twinProject : Project :=
  { resources := [{ Name := "a"
                    CostComponents := [{ Name := "x" }, { Name := "y" }] }] }

/-- The project `twinProject` after resolution against `fixedCatalog`. -/
def resolvedTwinProject : Project :=
  { resources := [{ Name := "a"
                    CostComponents := [{ Name := "x", Price := some (4 / 100) },
                                       { Name := "y", Price := some (4 / 100) }] }] }

/-- An environment whose collaborators all succeed trivially. -/
def baseEnv : RunEnv :=
  { detect := fun _ => some "terraform_dir"
    loadUsageFile := fun _ => .ok []
    loadResources := fun _ _ => .ok {}
    populatePrices := fun p => .ok p
    calculateCosts := id
    calculateDiff := id
    toOutputFormat := fun ps => { projects := ps }
    toJSON := fun _ _ => .ok "null"
    toHTML := fun _ _ => .ok ""
    toDiff := fun _ _ => .ok ""
    toTableDeprecated := fun _ _ => .ok ""
    toTable := fun _ _ => .ok ""
    writeFile := fun _ _ => .ok ()
    credentialsFilePath := "/root/.config/infracost/credentials.yml"
    style := {} }

/-- A copy of `baseEnv` with a price resolver that always fails on an invalid API key
wrapped once, as the pricing package does. -/
def invalidKeyEnv : RunEnv :=
  { baseEnv with
    populatePrices := fun _ => .error (.wrap "Error retrieving prices" ErrInvalidAPIKey) }

/-- A catalog for which every key hits a retryable catalog-side failure. -/
def retryCatalog : FilterKey → CatalogResult := fun _ => .retryableError

/-- A copy of `baseEnv` resolving against `retryCatalog` through the spec-modelled
resolver. -/
def retryEnv : RunEnv :=
  { baseEnv with populatePrices := specPopulatePrices retryCatalog }

/-- A configuration with a single project and no outputs. -/
def oneProjectConfig : Config := { projects := [{ Path := "plan.json" }] }

end Infracost

namespace Infracost

/-! ## Theorems -/

/-! ### Unfolding lemmas for the three runMain phases -/

/-- Load phase on an empty project list. -/
theorem loadProjects_nil (env : RunEnv) (i0 : Nat) :
    loadProjects env [] i0 = ([], .ok []) := rfl

/-- Load phase when provider detection fails on the first project. -/
theorem loadProjects_cons_detect_none (env : RunEnv) (pc : TerraformProject)
    (rest : List TerraformProject) (i0 : Nat) (hd : env.detect pc = none) :
    loadProjects env (pc :: rest) i0 =
      ([.detect i0], .error (.base "Could not detect path type")) := by
  unfold loadProjects
  rw [hd]

/-- Load phase when the usage file of the first project fails to load. -/
theorem loadProjects_cons_usage_error (env : RunEnv) (pc : TerraformProject)
    (rest : List TerraformProject) (i0 : Nat) (t : String) (e : GoError)
    (hd : env.detect pc = some t)
    (hu : env.loadUsageFile pc.UsageFile = .error e) :
    loadProjects env (pc :: rest) i0 = ([.detect i0, .loadUsage i0], .error e) := by
  unfold loadProjects
  rw [hd, hu]

/-- Load phase when resource loading fails on the first project. -/
theorem loadProjects_cons_resources_error (env : RunEnv) (pc : TerraformProject)
    (rest : List TerraformProject) (i0 : Nat) (t : String)
    (u : List (String × String)) (e : GoError)
    (hd : env.detect pc = some t)
    (hu : env.loadUsageFile pc.UsageFile = .ok u)
    (hr : env.loadResources pc u = .error e) :
    loadProjects env (pc :: rest) i0 =
      ([.detect i0, .loadUsage i0, .loadResources i0], .error e) := by
  simp only [loadProjects, hd, hu, hr]

/-- Load phase when the first project loads fully. -/
theorem loadProjects_cons_ok (env : RunEnv) (pc : TerraformProject)
    (rest : List TerraformProject) (i0 : Nat) (t : String)
    (u : List (String × String)) (proj : Project)
    (hd : env.detect pc = some t)
    (hu : env.loadUsageFile pc.UsageFile = .ok u)
    (hr : env.loadResources pc u = .ok proj) :
    loadProjects env (pc :: rest) i0 =
      (.detect i0 :: .loadUsage i0 :: .loadResources i0 ::
         (loadProjects env rest (i0 + 1)).1,
       match (loadProjects env rest (i0 + 1)).2 with
       | .error e => .error e
       | .ok ps => .ok (proj :: ps)) := by
  simp only [loadProjects, hd, hu, hr]

/-- Prices phase on an empty project list. -/
theorem pricesPhase_nil (env : RunEnv) (i0 : Nat) :
    pricesPhase env [] i0 = ([], .ok []) := rfl

/-- Prices phase when price population fails on the first project. -/
theorem pricesPhase_cons_error (env : RunEnv) (p : Project) (rest : List Project)
    (i0 : Nat) (err : GoError) (h : env.populatePrices p = .error err) :
    pricesPhase env (p :: rest) i0 =
      ([.populatePrices i0], .error (translatePricingError env err)) := by
  unfold pricesPhase
  rw [h]

/-- Prices phase when price population succeeds on the first project. -/
theorem pricesPhase_cons_ok (env : RunEnv) (p : Project) (rest : List Project)
    (i0 : Nat) (p1 : Project) (h : env.populatePrices p = .ok p1) :
    pricesPhase env (p :: rest) i0 =
      (.populatePrices i0 :: .calculateCosts i0 :: .calculateDiff i0 ::
         (pricesPhase env rest (i0 + 1)).1,
       match (pricesPhase env rest (i0 + 1)).2 with
       | .error e => .error e
       | .ok ps => .ok (env.calculateDiff (env.calculateCosts p1) :: ps)) := by
  simp only [pricesPhase, h]

/-- Evaluating `runMain` when the load phase fails. -/
theorem runMain_load_error (env : RunEnv) (cfg : Config) (tr1 : List Event)
    (e : GoError) (h : loadProjects env cfg.projects 0 = (tr1, .error e)) :
    runMain env cfg = (tr1, some e) := by
  simp [runMain, h]

/-- Evaluating `runMain` when loading succeeds and the prices phase fails. -/
theorem runMain_prices_error (env : RunEnv) (cfg : Config) (tr1 : List Event)
    (ps : List Project) (tr2 : List Event) (e : GoError)
    (hl : loadProjects env cfg.projects 0 = (tr1, .ok ps))
    (hp : pricesPhase env ps 0 = (tr2, .error e)) :
    runMain env cfg = (tr1 ++ tr2, some e) := by
  simp [runMain, hl, hp]

/-- Evaluating `runMain` when both the load and prices phases succeed. -/
theorem runMain_phases_ok (env : RunEnv) (cfg : Config) (tr1 : List Event)
    (ps : List Project) (tr2 : List Event) (qs : List Project)
    (hl : loadProjects env cfg.projects 0 = (tr1, .ok ps))
    (hp : pricesPhase env ps 0 = (tr2, .ok qs)) :
    runMain env cfg =
      (tr1 ++ tr2 ++ Event.toOutputFormat ::
         (outputPhase env (env.toOutputFormat qs) cfg.noColor cfg.outputs 0).1,
       (outputPhase env (env.toOutputFormat qs) cfg.noColor cfg.outputs 0).2) := by
  simp [runMain, hl, hp]

/-- Every event of the load-phase trace is a detect/loadUsage/loadResources
event with a project index in range. -/
theorem loadProjects_trace_mem (env : RunEnv) (cfgs : List TerraformProject) :
    ∀ (i0 : Nat) (e : Event), e ∈ (loadProjects env cfgs i0).1 →
      ∃ k, i0 ≤ k ∧ k < i0 + cfgs.length ∧
        (e = .detect k ∨ e = .loadUsage k ∨ e = .loadResources k) := by
  induction cfgs with
  | nil => intro i0 e he; simp [loadProjects_nil] at he
  | cons pc rest ih =>
    intro i0 e he
    cases hd : env.detect pc with
    | none =>
      rw [loadProjects_cons_detect_none env pc rest i0 hd] at he
      simp only [List.mem_singleton] at he
      exact ⟨i0, le_refl _, by simp, Or.inl he⟩
    | some t =>
      cases hu : env.loadUsageFile pc.UsageFile with
      | error e1 =>
        rw [loadProjects_cons_usage_error env pc rest i0 t e1 hd hu] at he
        rcases (by simpa using he : e = .detect i0 ∨ e = .loadUsage i0) with h | h
        · exact ⟨i0, le_refl _, by simp, Or.inl h⟩
        · exact ⟨i0, le_refl _, by simp, Or.inr (Or.inl h)⟩
      | ok u =>
        cases hr : env.loadResources pc u with
        | error e1 =>
          rw [loadProjects_cons_resources_error env pc rest i0 t u e1 hd hu hr] at he
          rcases (by simpa using he :
              e = .detect i0 ∨ e = .loadUsage i0 ∨ e = .loadResources i0) with h | h | h
          · exact ⟨i0, le_refl _, by simp, Or.inl h⟩
          · exact ⟨i0, le_refl _, by simp, Or.inr (Or.inl h)⟩
          · exact ⟨i0, le_refl _, by simp, Or.inr (Or.inr h)⟩
        | ok proj =>
          rw [loadProjects_cons_ok env pc rest i0 t u proj hd hu hr] at he
          rcases (by simpa using he :
              e = .detect i0 ∨ e = .loadUsage i0 ∨ e = .loadResources i0 ∨
                e ∈ (loadProjects env rest (i0 + 1)).1) with h | h | h | h
          · exact ⟨i0, le_refl _, by simp, Or.inl h⟩
          · exact ⟨i0, le_refl _, by simp, Or.inr (Or.inl h)⟩
          · exact ⟨i0, le_refl _, by simp, Or.inr (Or.inr h)⟩
          · obtain ⟨k, hk1, hk2, hk3⟩ := ih (i0 + 1) e h
            exact ⟨k, by omega, by simp; omega, hk3⟩

/-- Every event of the prices-phase trace is a populatePrices/calculateCosts/
calculateDiff event with a project index in range. -/
theorem pricesPhase_trace_mem (env : RunEnv) (ps : List Project) :
    ∀ (i0 : Nat) (e : Event), e ∈ (pricesPhase env ps i0).1 →
      ∃ k, i0 ≤ k ∧ k < i0 + ps.length ∧
        (e = .populatePrices k ∨ e = .calculateCosts k ∨ e = .calculateDiff k) := by
  induction ps with
  | nil => intro i0 e he; simp [pricesPhase_nil] at he
  | cons p rest ih =>
    intro i0 e he
    cases hp : env.populatePrices p with
    | error err =>
      rw [pricesPhase_cons_error env p rest i0 err hp] at he
      simp only [List.mem_singleton] at he
      exact ⟨i0, le_refl _, by simp, Or.inl he⟩
    | ok p1 =>
      rw [pricesPhase_cons_ok env p rest i0 p1 hp] at he
      rcases (by simpa using he :
          e = .populatePrices i0 ∨ e = .calculateCosts i0 ∨ e = .calculateDiff i0 ∨
            e ∈ (pricesPhase env rest (i0 + 1)).1) with h | h | h | h
      · exact ⟨i0, le_refl _, by simp, Or.inl h⟩
      · exact ⟨i0, le_refl _, by simp, Or.inr (Or.inl h)⟩
      · exact ⟨i0, le_refl _, by simp, Or.inr (Or.inr h)⟩
      · obtain ⟨k, hk1, hk2, hk3⟩ := ih (i0 + 1) e h
        exact ⟨k, by omega, by simp; omega, hk3⟩

/-- Every event of the output-phase trace is a render/write/print event. -/
theorem outputPhase_trace_mem (env : RunEnv) (r : OutputRoot) (nc : Bool)
    (ocs : List OutputConfig) :
    ∀ (j0 : Nat) (e : Event), e ∈ (outputPhase env r nc ocs j0).1 →
      ∃ k, e = .renderOutput k ∨ e = .writeOutputFile k ∨ e = .printOutput k := by
  induction ocs with
  | nil => intro j0 e he; simp [outputPhase] at he
  | cons oc rest ih =>
    intro j0 e he
    rcases hrf : renderFor env r { showSkipped := oc.ShowSkipped, noColor := nc } oc.Format
      with e1 | out
    · simp only [outputPhase, hrf, List.mem_singleton] at he
      exact ⟨j0, Or.inl he⟩
    · by_cases hpath : oc.Path ≠ ""
      · cases hw : env.writeFile oc.Path out with
        | error e2 =>
          simp only [outputPhase, hrf, if_pos hpath, hw] at he
          rcases (by simpa using he : e = .renderOutput j0 ∨ e = .writeOutputFile j0)
            with h | h
          · exact ⟨j0, Or.inl h⟩
          · exact ⟨j0, Or.inr (Or.inl h)⟩
        | ok _ =>
          simp only [outputPhase, hrf, if_pos hpath, hw] at he
          rcases (by simpa using he :
              e = .renderOutput j0 ∨ e = .writeOutputFile j0 ∨
                e ∈ (outputPhase env r nc rest (j0 + 1)).1) with h | h | h
          · exact ⟨j0, Or.inl h⟩
          · exact ⟨j0, Or.inr (Or.inl h)⟩
          · exact ih (j0 + 1) e h
      · simp only [outputPhase, hrf, if_neg hpath] at he
        rcases (by simpa using he :
            e = .renderOutput j0 ∨ e = .printOutput j0 ∨
              e ∈ (outputPhase env r nc rest (j0 + 1)).1) with h | h | h
        · exact ⟨j0, Or.inl h⟩
        · exact ⟨j0, Or.inr (Or.inr h)⟩
        · exact ih (j0 + 1) e h

/-- A fully successful load phase returns one project per configuration and
its trace lists the detect/loadUsage/loadResources block of every project, in
order. -/
theorem loadProjects_ok (env : RunEnv) (cfgs : List TerraformProject) :
    ∀ (i0 : Nat) (tr : List Event) (ps : List Project),
      loadProjects env cfgs i0 = (tr, .ok ps) →
      ps.length = cfgs.length ∧
      ∀ i, i < cfgs.length →
        [Event.detect (i0 + i), Event.loadUsage (i0 + i),
          Event.loadResources (i0 + i)].Sublist tr := by
  induction cfgs with
  | nil =>
    intro i0 tr ps h
    rw [loadProjects_nil] at h
    simp only [Prod.mk.injEq, Except.ok.injEq] at h
    obtain ⟨rfl, rfl⟩ := h
    exact ⟨rfl, by intro i hi; simp at hi⟩
  | cons pc rest ih =>
    intro i0 tr ps h
    cases hd : env.detect pc with
    | none =>
      rw [loadProjects_cons_detect_none env pc rest i0 hd] at h
      simp at h
    | some t =>
      cases hu : env.loadUsageFile pc.UsageFile with
      | error e1 =>
        rw [loadProjects_cons_usage_error env pc rest i0 t e1 hd hu] at h
        simp at h
      | ok u =>
        cases hr : env.loadResources pc u with
        | error e1 =>
          rw [loadProjects_cons_resources_error env pc rest i0 t u e1 hd hu hr] at h
          simp at h
        | ok proj =>
          rw [loadProjects_cons_ok env pc rest i0 t u proj hd hu hr] at h
          cases htail : (loadProjects env rest (i0 + 1)).2 with
          | error e1 => rw [htail] at h; simp at h
          | ok ps' =>
            rw [htail] at h
            simp only [Prod.mk.injEq, Except.ok.injEq] at h
            obtain ⟨rfl, rfl⟩ := h
            have hrec : loadProjects env rest (i0 + 1) =
                ((loadProjects env rest (i0 + 1)).1, .ok ps') := by
              rw [← htail]
            obtain ⟨hlen, hsub⟩ := ih (i0 + 1) _ ps' hrec
            refine ⟨by simp [hlen], ?_⟩
            intro i hi
            cases i with
            | zero => simp
            | succ j =>
              have hj : j < rest.length := by simpa using Nat.lt_of_succ_lt_succ hi
              have harith : i0 + (j + 1) = i0 + 1 + j := by omega
              rw [harith]
              exact (((hsub j hj).cons _).cons _).cons _

/-- A fully successful prices phase returns one project per input and its
trace lists the populatePrices/calculateCosts/calculateDiff block of every
project, in order. -/
theorem pricesPhase_ok (env : RunEnv) (ps : List Project) :
    ∀ (i0 : Nat) (tr : List Event) (qs : List Project),
      pricesPhase env ps i0 = (tr, .ok qs) →
      qs.length = ps.length ∧
      ∀ i, i < ps.length →
        [Event.populatePrices (i0 + i), Event.calculateCosts (i0 + i),
          Event.calculateDiff (i0 + i)].Sublist tr := by
  induction ps with
  | nil =>
    intro i0 tr qs h
    rw [pricesPhase_nil] at h
    simp only [Prod.mk.injEq, Except.ok.injEq] at h
    obtain ⟨rfl, rfl⟩ := h
    exact ⟨rfl, by intro i hi; simp at hi⟩
  | cons p rest ih =>
    intro i0 tr qs h
    cases hp : env.populatePrices p with
    | error err =>
      rw [pricesPhase_cons_error env p rest i0 err hp] at h
      simp at h
    | ok p1 =>
      rw [pricesPhase_cons_ok env p rest i0 p1 hp] at h
      cases htail : (pricesPhase env rest (i0 + 1)).2 with
      | error e1 => rw [htail] at h; simp at h
      | ok qs' =>
        rw [htail] at h
        simp only [Prod.mk.injEq, Except.ok.injEq] at h
        obtain ⟨rfl, rfl⟩ := h
        have hrec : pricesPhase env rest (i0 + 1) =
            ((pricesPhase env rest (i0 + 1)).1, .ok qs') := by
          rw [← htail]
        obtain ⟨hlen, hsub⟩ := ih (i0 + 1) _ qs' hrec
        refine ⟨by simp [hlen], ?_⟩
        intro i hi
        cases i with
        | zero => simp
        | succ j =>
          have hj : j < rest.length := by simpa using Nat.lt_of_succ_lt_succ hi
          have harith : i0 + (j + 1) = i0 + 1 + j := by omega
          rw [harith]
          exact (((hsub j hj).cons _).cons _).cons _

/-- When every price-population call succeeds, the prices phase succeeds. -/
theorem pricesPhase_all_ok (env : RunEnv)
    (hall : ∀ p, ∃ q, env.populatePrices p = .ok q) :
    ∀ (ps : List Project) (i0 : Nat),
      ∃ tr qs, pricesPhase env ps i0 = (tr, .ok qs) := by
  intro ps
  induction ps with
  | nil => intro i0; exact ⟨[], [], rfl⟩
  | cons p rest ih =>
    intro i0
    obtain ⟨q, hq⟩ := hall p
    obtain ⟨tr, qs, hrec⟩ := ih (i0 + 1)
    refine ⟨.populatePrices i0 :: .calculateCosts i0 :: .calculateDiff i0 :: tr,
      env.calculateDiff (env.calculateCosts q) :: qs, ?_⟩
    rw [pricesPhase_cons_ok env p rest i0 q hq, hrec]

/-- If some project's price population fails, the prices phase returns an
error and the cost-calculation and diff stages never run for the failing
project or any later one. -/
theorem pricesPhase_fail_any (env : RunEnv) :
    ∀ (pre : List Project) (p : Project) (suf : List Project) (i0 : Nat)
      (err : GoError), env.populatePrices p = .error err →
      ∃ tr2 E, pricesPhase env (pre ++ p :: suf) i0 = (tr2, .error E) ∧
        ∀ k, i0 + pre.length ≤ k →
          Event.calculateCosts k ∉ tr2 ∧ Event.calculateDiff k ∉ tr2 := by
  intro pre
  induction pre with
  | nil =>
    intro p suf i0 err hfail
    refine ⟨[.populatePrices i0], translatePricingError env err, ?_, ?_⟩
    · simpa using pricesPhase_cons_error env p suf i0 err hfail
    · intro k _; constructor <;> simp
  | cons q pre' ih =>
    intro p suf i0 err hfail
    cases hq : env.populatePrices q with
    | error e2 =>
      refine ⟨[.populatePrices i0], translatePricingError env e2, ?_, ?_⟩
      · simpa using pricesPhase_cons_error env q (pre' ++ p :: suf) i0 e2 hq
      · intro k _; constructor <;> simp
    | ok q1 =>
      obtain ⟨tr2, E, hrec, hnot⟩ := ih p suf (i0 + 1) err hfail
      refine ⟨.populatePrices i0 :: .calculateCosts i0 :: .calculateDiff i0 :: tr2,
        E, ?_, ?_⟩
      · rw [List.cons_append, pricesPhase_cons_ok env q (pre' ++ p :: suf) i0 q1 hq, hrec]
      · intro k hk
        have hk0 : i0 < k := by simp at hk; omega
        have hk' : i0 + 1 + pre'.length ≤ k := by simp at hk; omega
        obtain ⟨h1, h2⟩ := hnot k hk'
        constructor
        · intro hmem
          rcases (by simpa using hmem :
              Event.calculateCosts k = Event.populatePrices i0 ∨
              Event.calculateCosts k = Event.calculateCosts i0 ∨
              Event.calculateCosts k = Event.calculateDiff i0 ∨
              Event.calculateCosts k ∈ tr2) with h | h | h | h
          · simp at h
          · simp at h; omega
          · simp at h
          · exact h1 h
        · intro hmem
          rcases (by simpa using hmem :
              Event.calculateDiff k = Event.populatePrices i0 ∨
              Event.calculateDiff k = Event.calculateCosts i0 ∨
              Event.calculateDiff k = Event.calculateDiff i0 ∨
              Event.calculateDiff k ∈ tr2) with h | h | h | h
          · simp at h
          · simp at h
          · simp at h; omega
          · exact h2 h

/-- If every project before the failing one resolves and the failing one's
fully unwrapped error is `ErrInvalidAPIKey`, the prices phase returns exactly
the credentials-guidance error and the cost-calculation and diff stages never
run for the failing project or any later one. -/
theorem pricesPhase_fail_invalid (env : RunEnv) :
    ∀ (pre : List Project) (p : Project) (suf : List Project) (i0 : Nat)
      (err : GoError),
      (∀ q ∈ pre, ∃ q', env.populatePrices q = .ok q') →
      env.populatePrices p = .error err →
      errorsIs (unwrapped err) ErrInvalidAPIKey = true →
      ∃ tr2, pricesPhase env (pre ++ p :: suf) i0 =
          (tr2, .error (.base (invalidAPIKeyMessage (unwrapped err)
            env.credentialsFilePath env.style))) ∧
        ∀ k, i0 + pre.length ≤ k →
          Event.calculateCosts k ∉ tr2 ∧ Event.calculateDiff k ∉ tr2 := by
  intro pre
  induction pre with
  | nil =>
    intro p suf i0 err _ hfail hkey
    refine ⟨[.populatePrices i0], ?_, ?_⟩
    · have := pricesPhase_cons_error env p suf i0 err hfail
      rw [show translatePricingError env err =
          .base (invalidAPIKeyMessage (unwrapped err) env.credentialsFilePath env.style)
        from by simp [translatePricingError, hkey]] at this
      simpa using this
    · intro k _; constructor <;> simp
  | cons q pre' ih =>
    intro p suf i0 err hpre hfail hkey
    obtain ⟨q1, hq⟩ := hpre q (List.mem_cons_self q pre')
    obtain ⟨tr2, hrec, hnot⟩ :=
      ih p suf (i0 + 1) err (fun x hx => hpre x (List.mem_cons_of_mem q hx)) hfail hkey
    refine ⟨.populatePrices i0 :: .calculateCosts i0 :: .calculateDiff i0 :: tr2, ?_, ?_⟩
    · rw [List.cons_append, pricesPhase_cons_ok env q (pre' ++ p :: suf) i0 q1 hq, hrec]
    · intro k hk
      have hk0 : i0 < k := by simp at hk; omega
      have hk' : i0 + 1 + pre'.length ≤ k := by simp at hk; omega
      obtain ⟨h1, h2⟩ := hnot k hk'
      constructor
      · intro hmem
        rcases (by simpa using hmem :
            Event.calculateCosts k = Event.populatePrices i0 ∨
            Event.calculateCosts k = Event.calculateCosts i0 ∨
            Event.calculateCosts k = Event.calculateDiff i0 ∨
            Event.calculateCosts k ∈ tr2) with h | h | h | h
        · simp at h
        · simp at h; omega
        · simp at h
        · exact h1 h
      · intro hmem
        rcases (by simpa using hmem :
            Event.calculateDiff k = Event.populatePrices i0 ∨
            Event.calculateDiff k = Event.calculateCosts i0 ∨
            Event.calculateDiff k = Event.calculateDiff i0 ∨
            Event.calculateDiff k ∈ tr2) with h | h | h | h
        · simp at h
        · simp at h
        · simp at h; omega
        · exact h2 h

/-- If some project's usage file fails to load, the load phase returns an
error and the resource-loading stage never runs for the failing project or
any later one. -/
theorem loadProjects_usage_error (env : RunEnv) :
    ∀ (pre : List TerraformProject) (pc : TerraformProject)
      (suf : List TerraformProject) (i0 : Nat) (e : GoError),
      env.loadUsageFile pc.UsageFile = .error e →
      ∃ tr1 E, loadProjects env (pre ++ pc :: suf) i0 = (tr1, .error E) ∧
        ∀ k, i0 + pre.length ≤ k → Event.loadResources k ∉ tr1 := by
  intro pre
  induction pre with
  | nil =>
    intro pc suf i0 e hu
    cases hd : env.detect pc with
    | none =>
      refine ⟨[.detect i0], .base "Could not detect path type", ?_, ?_⟩
      · simpa using loadProjects_cons_detect_none env pc suf i0 hd
      · intro k _; simp
    | some t =>
      refine ⟨[.detect i0, .loadUsage i0], e, ?_, ?_⟩
      · simpa using loadProjects_cons_usage_error env pc suf i0 t e hd hu
      · intro k _; simp
  | cons q pre' ih =>
    intro pc suf i0 e hu
    cases hd : env.detect q with
    | none =>
      refine ⟨[.detect i0], .base "Could not detect path type", ?_, ?_⟩
      · simpa using loadProjects_cons_detect_none env q (pre' ++ pc :: suf) i0 hd
      · intro k _; simp
    | some t =>
      cases hqu : env.loadUsageFile q.UsageFile with
      | error e2 =>
        refine ⟨[.detect i0, .loadUsage i0], e2, ?_, ?_⟩
        · simpa using loadProjects_cons_usage_error env q (pre' ++ pc :: suf) i0 t e2 hd hqu
        · intro k _; simp
      | ok u =>
        cases hqr : env.loadResources q u with
        | error e2 =>
          refine ⟨[.detect i0, .loadUsage i0, .loadResources i0], e2, ?_, ?_⟩
          · simpa using
              loadProjects_cons_resources_error env q (pre' ++ pc :: suf) i0 t u e2 hd hqu hqr
          · intro k hk
            have hk0 : i0 < k := by simp at hk; omega
            simp
            omega
        | ok proj =>
          obtain ⟨tr1, E, hrec, hnot⟩ := ih pc suf (i0 + 1) e hu
          refine ⟨.detect i0 :: .loadUsage i0 :: .loadResources i0 :: tr1, E, ?_, ?_⟩
          · rw [List.cons_append,
              loadProjects_cons_ok env q (pre' ++ pc :: suf) i0 t u proj hd hqu hqr, hrec]
          · intro k hk
            have hk0 : i0 < k := by simp at hk; omega
            have hk' : i0 + 1 + pre'.length ≤ k := by simp at hk; omega
            have h1 := hnot k hk'
            intro hmem
            rcases (by simpa using hmem :
                Event.loadResources k = Event.detect i0 ∨
                Event.loadResources k = Event.loadUsage i0 ∨
                Event.loadResources k = Event.loadResources i0 ∨
                Event.loadResources k ∈ tr1) with h | h | h | h
            · simp at h
            · simp at h
            · simp at h; omega
            · exact h1 h

/-- If provider detection fails for some project, the load phase returns an
error and the usage-loading and resource-loading stages never run for the
failing project or any later one. -/
theorem loadProjects_detect_none_error (env : RunEnv) :
    ∀ (pre : List TerraformProject) (pc : TerraformProject)
      (suf : List TerraformProject) (i0 : Nat),
      env.detect pc = none →
      ∃ tr1 E, loadProjects env (pre ++ pc :: suf) i0 = (tr1, .error E) ∧
        ∀ k, i0 + pre.length ≤ k →
          Event.loadUsage k ∉ tr1 ∧ Event.loadResources k ∉ tr1 := by
  intro pre
  induction pre with
  | nil =>
    intro pc suf i0 hdet
    refine ⟨[.detect i0], .base "Could not detect path type", ?_, ?_⟩
    · simpa using loadProjects_cons_detect_none env pc suf i0 hdet
    · intro k _; constructor <;> simp
  | cons q pre' ih =>
    intro pc suf i0 hdet
    cases hd : env.detect q with
    | none =>
      refine ⟨[.detect i0], .base "Could not detect path type", ?_, ?_⟩
      · simpa using loadProjects_cons_detect_none env q (pre' ++ pc :: suf) i0 hd
      · intro k _; constructor <;> simp
    | some t =>
      have hk0 : ∀ k, i0 + (q :: pre').length ≤ k → i0 < k := by
        intro k hk
        simp only [List.length_cons] at hk
        omega
      cases hqu : env.loadUsageFile q.UsageFile with
      | error e2 =>
        refine ⟨[.detect i0, .loadUsage i0], e2, ?_, ?_⟩
        · simpa using loadProjects_cons_usage_error env q (pre' ++ pc :: suf) i0 t e2 hd hqu
        · intro k hk
          have := hk0 k hk
          constructor <;> (intro hmem; simp at hmem <;> omega)
      | ok u =>
        cases hqr : env.loadResources q u with
        | error e2 =>
          refine ⟨[.detect i0, .loadUsage i0, .loadResources i0], e2, ?_, ?_⟩
          · simpa using
              loadProjects_cons_resources_error env q (pre' ++ pc :: suf) i0 t u e2 hd hqu hqr
          · intro k hk
            have := hk0 k hk
            constructor <;> (intro hmem; simp at hmem <;> omega)
        | ok proj =>
          obtain ⟨tr1, E, hrec, hnot⟩ := ih pc suf (i0 + 1) hdet
          refine ⟨.detect i0 :: .loadUsage i0 :: .loadResources i0 :: tr1, E, ?_, ?_⟩
          · rw [List.cons_append,
              loadProjects_cons_ok env q (pre' ++ pc :: suf) i0 t u proj hd hqu hqr, hrec]
          · intro k hk
            have hklt := hk0 k hk
            have hk' : i0 + 1 + pre'.length ≤ k := by
              simp only [List.length_cons] at hk
              omega
            obtain ⟨h1, h2⟩ := hnot k hk'
            constructor
            · intro hmem
              rcases (by simpa using hmem :
                  Event.loadUsage k = Event.detect i0 ∨
                  Event.loadUsage k = Event.loadUsage i0 ∨
                  Event.loadUsage k = Event.loadResources i0 ∨
                  Event.loadUsage k ∈ tr1) with h | h | h | h
              · simp at h
              · simp at h; omega
              · simp at h
              · exact h1 h
            · intro hmem
              rcases (by simpa using hmem :
                  Event.loadResources k = Event.detect i0 ∨
                  Event.loadResources k = Event.loadUsage i0 ∨
                  Event.loadResources k = Event.loadResources i0 ∨
                  Event.loadResources k ∈ tr1) with h | h | h | h
              · simp at h
              · simp at h
              · simp at h; omega
              · exact h2 h

/-- If some project's usage file loads but its resources fail to load, the
load phase returns an error. -/
theorem loadProjects_resources_error_any (env : RunEnv) :
    ∀ (pre : List TerraformProject) (pc : TerraformProject)
      (suf : List TerraformProject) (i0 : Nat)
      (u : List (String × String)) (e : GoError),
      env.loadUsageFile pc.UsageFile = .ok u →
      env.loadResources pc u = .error e →
      ∃ tr1 E, loadProjects env (pre ++ pc :: suf) i0 = (tr1, .error E) := by
  intro pre
  induction pre with
  | nil =>
    intro pc suf i0 u e hu hr
    cases hd : env.detect pc with
    | none =>
      exact ⟨[.detect i0], .base "Could not detect path type",
        by simpa using loadProjects_cons_detect_none env pc suf i0 hd⟩
    | some t =>
      exact ⟨[.detect i0, .loadUsage i0, .loadResources i0], e,
        by simpa using loadProjects_cons_resources_error env pc suf i0 t u e hd hu hr⟩
  | cons q pre' ih =>
    intro pc suf i0 u e hu hr
    cases hd : env.detect q with
    | none =>
      exact ⟨[.detect i0], .base "Could not detect path type",
        by simpa using loadProjects_cons_detect_none env q (pre' ++ pc :: suf) i0 hd⟩
    | some t =>
      cases hqu : env.loadUsageFile q.UsageFile with
      | error e2 =>
        exact ⟨[.detect i0, .loadUsage i0], e2,
          by simpa using loadProjects_cons_usage_error env q (pre' ++ pc :: suf) i0 t e2 hd hqu⟩
      | ok u2 =>
        cases hqr : env.loadResources q u2 with
        | error e2 =>
          exact ⟨[.detect i0, .loadUsage i0, .loadResources i0], e2,
            by simpa using
              loadProjects_cons_resources_error env q (pre' ++ pc :: suf) i0 t u2 e2 hd hqu hqr⟩
        | ok proj =>
          obtain ⟨tr1, E, hrec⟩ := ih pc suf (i0 + 1) u e hu hr
          exact ⟨.detect i0 :: .loadUsage i0 :: .loadResources i0 :: tr1, E,
            by
              rw [List.cons_append,
                loadProjects_cons_ok env q (pre' ++ pc :: suf) i0 t u2 proj hd hqu hqr, hrec]⟩

/-- Whenever the load-phase trace contains a project's loadResources event,
it contains that project's detect and loadUsage events before it. -/
theorem loadProjects_block_sublist (env : RunEnv) (cfgs : List TerraformProject) :
    ∀ (i0 i : Nat),
      Event.loadResources i ∈ (loadProjects env cfgs i0).1 →
      [Event.detect i, Event.loadUsage i, Event.loadResources i].Sublist
        (loadProjects env cfgs i0).1 := by
  induction cfgs with
  | nil => intro i0 i hmem; simp [loadProjects_nil] at hmem
  | cons pc rest ih =>
    intro i0 i hmem
    cases hd : env.detect pc with
    | none =>
      rw [loadProjects_cons_detect_none env pc rest i0 hd] at hmem
      simp at hmem
    | some t =>
      cases hu : env.loadUsageFile pc.UsageFile with
      | error e1 =>
        rw [loadProjects_cons_usage_error env pc rest i0 t e1 hd hu] at hmem
        simp at hmem
      | ok u =>
        cases hr : env.loadResources pc u with
        | error e1 =>
          rw [loadProjects_cons_resources_error env pc rest i0 t u e1 hd hu hr] at hmem ⊢
          rcases (by simpa using hmem : i = i0) with rfl
          exact List.Sublist.refl _
        | ok proj =>
          rw [loadProjects_cons_ok env pc rest i0 t u proj hd hu hr] at hmem ⊢
          rcases (by simpa using hmem :
              i = i0 ∨ Event.loadResources i ∈ (loadProjects env rest (i0 + 1)).1)
            with rfl | h
          · simp
          · exact (((ih (i0 + 1) i h).cons _).cons _).cons _

/-- Whenever the prices-phase trace contains a project's calculateCosts or
calculateDiff event, it contains the full populatePrices → calculateCosts →
calculateDiff block of that project, in order. -/
theorem pricesPhase_block_sublist (env : RunEnv) (ps : List Project) :
    ∀ (i0 i : Nat),
      (Event.calculateCosts i ∈ (pricesPhase env ps i0).1 ∨
        Event.calculateDiff i ∈ (pricesPhase env ps i0).1) →
      [Event.populatePrices i, Event.calculateCosts i, Event.calculateDiff i].Sublist
        (pricesPhase env ps i0).1 := by
  induction ps with
  | nil => intro i0 i hmem; rcases hmem with h | h <;> simp [pricesPhase_nil] at h
  | cons p rest ih =>
    intro i0 i hmem
    cases hp : env.populatePrices p with
    | error err =>
      rw [pricesPhase_cons_error env p rest i0 err hp] at hmem
      rcases hmem with h | h <;> simp at h
    | ok p1 =>
      rw [pricesPhase_cons_ok env p rest i0 p1 hp] at hmem ⊢
      rcases hmem with h | h
      · rcases (by simpa using h :
            i = i0 ∨ Event.calculateCosts i ∈ (pricesPhase env rest (i0 + 1)).1)
          with rfl | h'
        · simp
        · exact (((ih (i0 + 1) i (Or.inl h')).cons _).cons _).cons _
      · rcases (by simpa using h :
            i = i0 ∨ Event.calculateDiff i ∈ (pricesPhase env rest (i0 + 1)).1)
          with rfl | h'
        · simp
        · exact (((ih (i0 + 1) i (Or.inr h')).cons _).cons _).cons _

/-- C1: when price resolution fails on some project with a fully unwrapped
root cause of `ErrInvalidAPIKey`, `runMain` aborts: it returns a non-nil
error whose message names the credentials file path and the
INFRACOST_API_KEY environment variable, it never runs cost calculation or
diffing for the failing project or any later one, and it produces no output
(no conversion, rendering, file write or print happens). -/
theorem runMain_invalid_api_key_aborts
    (env : RunEnv) (cfg : Config) (tr1 : List Event)
    (pre suf : List Project) (p : Project) (err : GoError)
    (hload : loadProjects env cfg.projects 0 = (tr1, .ok (pre ++ p :: suf)))
    (hpre : ∀ q ∈ pre, ∃ q', env.populatePrices q = .ok q')
    (hfail : env.populatePrices p = .error err)
    (hkey : errorsIs (unwrapped err) ErrInvalidAPIKey = true) :
    ∃ tr msg,
      runMain env cfg = (tr, some (.base msg)) ∧
      (∃ a b, msg = a ++ env.credentialsFilePath ++ b) ∧
      (∃ a b, msg = a ++ "INFRACOST_API_KEY" ++ b) ∧
      (∀ k, pre.length ≤ k →
        Event.calculateCosts k ∉ tr ∧ Event.calculateDiff k ∉ tr) ∧
      Event.toOutputFormat ∉ tr ∧
      (∀ j, Event.renderOutput j ∉ tr ∧ Event.writeOutputFile j ∉ tr ∧
        Event.printOutput j ∉ tr) := by
  obtain ⟨tr2, hpp, hnot⟩ := pricesPhase_fail_invalid env pre p suf 0 err hpre hfail hkey
  have hrun := runMain_prices_error env cfg tr1 (pre ++ p :: suf) tr2 _ hload hpp
  have hmemL : ∀ {e : Event}, e ∈ tr1 →
      ∃ k, e = .detect k ∨ e = .loadUsage k ∨ e = .loadResources k := by
    intro e he
    obtain ⟨k, _, _, h3⟩ :=
      loadProjects_trace_mem env cfg.projects 0 e (by rw [hload]; exact he)
    exact ⟨k, h3⟩
  have hmemP : ∀ {e : Event}, e ∈ tr2 →
      ∃ k, e = .populatePrices k ∨ e = .calculateCosts k ∨ e = .calculateDiff k := by
    intro e he
    obtain ⟨k, _, _, h3⟩ :=
      pricesPhase_trace_mem env (pre ++ p :: suf) 0 e (by rw [hpp]; exact he)
    exact ⟨k, h3⟩
  refine ⟨tr1 ++ tr2,
    invalidAPIKeyMessage (unwrapped err) env.credentialsFilePath env.style,
    hrun, ?_, ?_, ?_, ?_, ?_⟩
  · refine ⟨(unwrapped err).message ++ "\n" ++ "Please check your" ++ " " ++ env.style.pre,
      env.style.post ++ " " ++ "file or" ++ " " ++
        env.style.primaryString "INFRACOST_API_KEY" ++ " " ++
        "environment variable." ++ "\n" ++
        "If you continue having issues please email hello@infracost.io", ?_⟩
    simp [invalidAPIKeyMessage, UIStyle.primaryString, String.append_assoc]
  · refine ⟨(unwrapped err).message ++ "\n" ++ "Please check your" ++ " " ++
      env.style.primaryString env.credentialsFilePath ++ " " ++ "file or" ++ " " ++
        env.style.pre,
      env.style.post ++ " " ++ "environment variable." ++ "\n" ++
        "If you continue having issues please email hello@infracost.io", ?_⟩
    simp [invalidAPIKeyMessage, UIStyle.primaryString, String.append_assoc]
  · intro k hk
    have h2 := hnot k (by omega)
    constructor
    · intro hmem
      rcases List.mem_append.mp hmem with h | h
      · obtain ⟨k', h' | h' | h'⟩ := hmemL h <;> simp at h'
      · exact h2.1 h
    · intro hmem
      rcases List.mem_append.mp hmem with h | h
      · obtain ⟨k', h' | h' | h'⟩ := hmemL h <;> simp at h'
      · exact h2.2 h
  · intro hmem
    rcases List.mem_append.mp hmem with h | h
    · obtain ⟨k', h' | h' | h'⟩ := hmemL h <;> simp at h'
    · obtain ⟨k', h' | h' | h'⟩ := hmemP h <;> simp at h'
  · intro j
    refine ⟨?_, ?_, ?_⟩ <;> intro hmem <;> rcases List.mem_append.mp hmem with h | h
    · obtain ⟨k', h' | h' | h'⟩ := hmemL h <;> simp at h'
    · obtain ⟨k', h' | h' | h'⟩ := hmemP h <;> simp at h'
    · obtain ⟨k', h' | h' | h'⟩ := hmemL h <;> simp at h'
    · obtain ⟨k', h' | h' | h'⟩ := hmemP h <;> simp at h'
    · obtain ⟨k', h' | h' | h'⟩ := hmemL h <;> simp at h'
    · obtain ⟨k', h' | h' | h'⟩ := hmemP h <;> simp at h'

/-- C1 witness: the abort at a one-project configuration whose resolver
rejects the API key. -/
theorem runMain_invalid_api_key_aborts_witness :
    ∃ tr msg,
      runMain invalidKeyEnv oneProjectConfig = (tr, some (.base msg)) ∧
      (∃ a b, msg = a ++ invalidKeyEnv.credentialsFilePath ++ b) ∧
      (∃ a b, msg = a ++ "INFRACOST_API_KEY" ++ b) ∧
      (∀ k, 0 ≤ k → Event.calculateCosts k ∉ tr ∧ Event.calculateDiff k ∉ tr) ∧
      Event.toOutputFormat ∉ tr ∧
      (∀ j, Event.renderOutput j ∉ tr ∧ Event.writeOutputFile j ∉ tr ∧
        Event.printOutput j ∉ tr) :=
  runMain_invalid_api_key_aborts invalidKeyEnv oneProjectConfig
    [.detect 0, .loadUsage 0, .loadResources 0] [] [] {}
    (.wrap "Error retrieving prices" ErrInvalidAPIKey)
    rfl (by simp) rfl (by decide)

/-- C2: a retryable catalog-side pricing error never surfaces as a
whole-operation failure — the spec-modelled resolver absorbs it (returning
ok, with only per-component unresolved markers), so `runMain` still runs
cost calculation and diffing for every project, converts the projects to the
output root, and its return value is exactly whatever the output phase alone
returns, independent of the retryable failures. -/
theorem runMain_retryable_absorbed
    (env : RunEnv) (cfg : Config) (catalog : FilterKey → CatalogResult)
    (tr1 : List Event) (ps : List Project)
    (hpp : env.populatePrices = specPopulatePrices catalog)
    (hcat : ∀ k, catalog k ≠ CatalogResult.invalidCredential)
    (hload : loadProjects env cfg.projects 0 = (tr1, .ok ps)) :
    ∃ tr2 qs,
      pricesPhase env ps 0 = (tr2, .ok qs) ∧
      (∀ i, i < ps.length →
        Event.calculateCosts i ∈ tr2 ∧ Event.calculateDiff i ∈ tr2) ∧
      Event.toOutputFormat ∈ (runMain env cfg).1 ∧
      (runMain env cfg).2 =
        (outputPhase env (env.toOutputFormat qs) cfg.noColor cfg.outputs 0).2 ∧
      (∀ c, catalog (filterKey c) = CatalogResult.retryableError →
        (resolveComponent catalog c).Unresolved = true ∧
        (resolveComponent catalog c).Price = none) := by
  have hall : ∀ p, ∃ q, env.populatePrices p = .ok q := by
    intro p
    rw [hpp]
    have hcond : ¬((resolverQueries p).any
        (fun k => catalog k == CatalogResult.invalidCredential) = true) := by
      intro hc
      rcases List.any_eq_true.mp hc with ⟨k, _, hkk⟩
      exact hcat k (by simpa using hkk)
    exact ⟨_, by unfold specPopulatePrices; rw [if_neg hcond]⟩
  obtain ⟨tr2, qs, hppok⟩ := pricesPhase_all_ok env hall ps 0
  obtain ⟨hlen, hsub⟩ := pricesPhase_ok env ps 0 tr2 qs hppok
  have hrun := runMain_phases_ok env cfg tr1 ps tr2 qs hload hppok
  refine ⟨tr2, qs, hppok, ?_, ?_, ?_, ?_⟩
  · intro i hi
    have hs := hsub i hi
    rw [Nat.zero_add] at hs
    exact ⟨hs.subset (by simp), hs.subset (by simp)⟩
  · rw [hrun]
    simp
  · rw [hrun]
  · intro c hc
    simp [resolveComponent, hc]

/-- C2 witness: a one-project run against a catalog that reports a retryable
failure on every key still completes end to end. -/
theorem runMain_retryable_absorbed_witness :
    ∃ tr2 qs,
      pricesPhase retryEnv [{}] 0 = (tr2, .ok qs) ∧
      (∀ i, i < List.length ([{}] : List Project) →
        Event.calculateCosts i ∈ tr2 ∧ Event.calculateDiff i ∈ tr2) ∧
      Event.toOutputFormat ∈ (runMain retryEnv oneProjectConfig).1 ∧
      (runMain retryEnv oneProjectConfig).2 =
        (outputPhase retryEnv (retryEnv.toOutputFormat qs)
          oneProjectConfig.noColor oneProjectConfig.outputs 0).2 ∧
      (∀ c, retryCatalog (filterKey c) = CatalogResult.retryableError →
        (resolveComponent retryCatalog c).Unresolved = true ∧
        (resolveComponent retryCatalog c).Price = none) :=
  runMain_retryable_absorbed retryEnv oneProjectConfig retryCatalog
    [.detect 0, .loadUsage 0, .loadResources 0] [{}]
    rfl (fun k => by simp [retryCatalog]) rfl

/-- C6: the `runMain` pipeline runs its stages in order for every project —
usage loading precedes resource loading, price population precedes cost
calculation, cost calculation precedes the diff, output conversion happens
only after every project completed all stages, and no stage runs for a
project after an earlier stage returned an error (shown for each
error-returning stage: provider detection, usage-file loading, resource
loading and price population). -/
theorem runMain_stage_order
    (env : RunEnv) (cfg : Config) (tr : List Event) (res : Option GoError)
    (h : runMain env cfg = (tr, res)) :
    (∀ i, Event.loadResources i ∈ tr →
      [Event.detect i, Event.loadUsage i, Event.loadResources i].Sublist tr) ∧
    (∀ i, Event.calculateCosts i ∈ tr ∨ Event.calculateDiff i ∈ tr →
      [Event.loadUsage i, Event.loadResources i, Event.populatePrices i,
        Event.calculateCosts i, Event.calculateDiff i].Sublist tr) ∧
    (Event.toOutputFormat ∈ tr → ∀ i, i < cfg.projects.length →
      [Event.loadUsage i, Event.loadResources i, Event.populatePrices i,
        Event.calculateCosts i, Event.calculateDiff i,
        Event.toOutputFormat].Sublist tr) ∧
    (∀ pre pc suf e, cfg.projects = pre ++ pc :: suf →
      env.loadUsageFile pc.UsageFile = .error e →
      Event.loadResources pre.length ∉ tr ∧
      (∀ k, Event.populatePrices k ∉ tr) ∧ Event.toOutputFormat ∉ tr) ∧
    (∀ tr1 pre p suf err,
      loadProjects env cfg.projects 0 = (tr1, .ok (pre ++ p :: suf)) →
      env.populatePrices p = .error err →
      Event.calculateCosts pre.length ∉ tr ∧
      Event.calculateDiff pre.length ∉ tr ∧ Event.toOutputFormat ∉ tr) ∧
    (∀ pre pc suf, cfg.projects = pre ++ pc :: suf →
      env.detect pc = none →
      Event.loadUsage pre.length ∉ tr ∧ Event.loadResources pre.length ∉ tr ∧
      (∀ k, Event.populatePrices k ∉ tr ∧ Event.calculateCosts k ∉ tr ∧
        Event.calculateDiff k ∉ tr) ∧
      Event.toOutputFormat ∉ tr) ∧
    (∀ pre pc suf u e, cfg.projects = pre ++ pc :: suf →
      env.loadUsageFile pc.UsageFile = .ok u →
      env.loadResources pc u = .error e →
      (∀ k, Event.populatePrices k ∉ tr ∧ Event.calculateCosts k ∉ tr ∧
        Event.calculateDiff k ∉ tr) ∧
      Event.toOutputFormat ∉ tr) := by
  rcases hl0 : loadProjects env cfg.projects 0 with ⟨tr1, res1⟩
  cases res1 with
  | error e0 =>
    have hrun := runMain_load_error env cfg tr1 e0 hl0
    rw [h] at hrun
    simp only [Prod.mk.injEq] at hrun
    obtain ⟨htr, hres⟩ := hrun
    subst htr
    have hmemL : ∀ {e : Event}, e ∈ tr →
        ∃ k, e = .detect k ∨ e = .loadUsage k ∨ e = .loadResources k := by
      intro e he
      obtain ⟨k, _, _, h3⟩ :=
        loadProjects_trace_mem env cfg.projects 0 e (by rw [hl0]; exact he)
      exact ⟨k, h3⟩
    refine ⟨?_, ?_, ?_, ?_, ?_, ?_, ?_⟩
    · intro i hmem
      have hs := loadProjects_block_sublist env cfg.projects 0 i (by rw [hl0]; exact hmem)
      rw [hl0] at hs
      exact hs
    · intro i hmem
      exfalso
      rcases hmem with hmem | hmem <;>
        · obtain ⟨k', h' | h' | h'⟩ := hmemL hmem <;> simp at h'
    · intro hmem
      exfalso
      obtain ⟨k', h' | h' | h'⟩ := hmemL hmem <;> simp at h'
    · intro pre pc suf e2 hsplit hue
      obtain ⟨tr1', E, heq, hnot⟩ := loadProjects_usage_error env pre pc suf 0 e2 hue
      rw [hsplit] at hl0
      rw [hl0] at heq
      simp only [Prod.mk.injEq] at heq
      obtain ⟨htr1, _⟩ := heq
      refine ⟨?_, ?_, ?_⟩
      · rw [htr1]; exact hnot pre.length (by omega)
      · intro k hmem
        obtain ⟨k', h' | h' | h'⟩ := hmemL hmem <;> simp at h'
      · intro hmem
        obtain ⟨k', h' | h' | h'⟩ := hmemL hmem <;> simp at h'
    · intro tr1' pre p suf err hl' _
      simp at hl'
    · intro pre pc suf hsplit hdet
      obtain ⟨tr1', E, heq, hnot⟩ := loadProjects_detect_none_error env pre pc suf 0 hdet
      rw [hsplit] at hl0
      rw [hl0] at heq
      simp only [Prod.mk.injEq] at heq
      obtain ⟨htr1, _⟩ := heq
      have hnot' := hnot pre.length (by omega)
      refine ⟨by rw [htr1]; exact hnot'.1, by rw [htr1]; exact hnot'.2, ?_, ?_⟩
      · intro k
        refine ⟨?_, ?_, ?_⟩ <;> intro hmem <;>
          (obtain ⟨k', h' | h' | h'⟩ := hmemL hmem <;> simp at h')
      · intro hmem
        obtain ⟨k', h' | h' | h'⟩ := hmemL hmem <;> simp at h'
    · intro pre pc suf u e2 _ _ _
      constructor
      · intro k
        refine ⟨?_, ?_, ?_⟩ <;> intro hmem <;>
          (obtain ⟨k', h' | h' | h'⟩ := hmemL hmem <;> simp at h')
      · intro hmem
        obtain ⟨k', h' | h' | h'⟩ := hmemL hmem <;> simp at h'
  | ok ps =>
    rcases hp0 : pricesPhase env ps 0 with ⟨tr2, res2⟩
    have hmemL : ∀ {e : Event}, e ∈ tr1 →
        ∃ k, e = .detect k ∨ e = .loadUsage k ∨ e = .loadResources k := by
      intro e he
      obtain ⟨k, _, _, h3⟩ :=
        loadProjects_trace_mem env cfg.projects 0 e (by rw [hl0]; exact he)
      exact ⟨k, h3⟩
    have hmemP : ∀ {e : Event}, e ∈ tr2 →
        ∃ k, k < ps.length ∧
          (e = .populatePrices k ∨ e = .calculateCosts k ∨ e = .calculateDiff k) := by
      intro e he
      obtain ⟨k, _, hk2, h3⟩ :=
        pricesPhase_trace_mem env ps 0 e (by rw [hp0]; exact he)
      exact ⟨k, by omega, h3⟩
    obtain ⟨hlenL, hsubL⟩ := loadProjects_ok env cfg.projects 0 tr1 ps hl0
    have hblockL : ∀ i, i < cfg.projects.length →
        [Event.detect i, Event.loadUsage i, Event.loadResources i].Sublist tr1 := by
      intro i hi
      have := hsubL i hi
      rwa [Nat.zero_add] at this
    cases res2 with
    | error e0 =>
      have hrun := runMain_prices_error env cfg tr1 ps tr2 e0 hl0 hp0
      rw [h] at hrun
      simp only [Prod.mk.injEq] at hrun
      obtain ⟨htr, hres⟩ := hrun
      subst htr
      refine ⟨?_, ?_, ?_, ?_, ?_, ?_, ?_⟩
      · intro i hmem
        rcases List.mem_append.mp hmem with hm | hm
        · have hs := loadProjects_block_sublist env cfg.projects 0 i (by rw [hl0]; exact hm)
          rw [hl0] at hs
          exact hs.trans (List.sublist_append_left tr1 tr2)
        · exfalso
          obtain ⟨k', _, h' | h' | h'⟩ := hmemP hm <;> simp at h'
      · intro i hmem
        have hmem2 : Event.calculateCosts i ∈ tr2 ∨ Event.calculateDiff i ∈ tr2 := by
          rcases hmem with hm | hm <;> rcases List.mem_append.mp hm with hm' | hm'
          · exact absurd (hmemL hm') (by rintro ⟨k', h' | h' | h'⟩ <;> simp at h')
          · exact Or.inl hm'
          · exact absurd (hmemL hm') (by rintro ⟨k', h' | h' | h'⟩ <;> simp at h')
          · exact Or.inr hm'
        have hi : i < ps.length := by
          rcases hmem2 with hm | hm <;>
            · obtain ⟨k', hk', h' | h' | h'⟩ := hmemP hm <;> simp at h' <;> omega
        have hsP := pricesPhase_block_sublist env ps 0 i (by rw [hp0]; exact hmem2)
        rw [hp0] at hsP
        have hsL2 : [Event.loadUsage i, Event.loadResources i].Sublist tr1 :=
          ((List.Sublist.refl _).cons _).trans (hblockL i (by omega))
        exact (hsL2.append hsP :)
      · intro hmem
        exfalso
        rcases List.mem_append.mp hmem with hm | hm
        · obtain ⟨k', h' | h' | h'⟩ := hmemL hm <;> simp at h'
        · obtain ⟨k', _, h' | h' | h'⟩ := hmemP hm <;> simp at h'
      · intro pre pc suf e2 hsplit hue
        exfalso
        obtain ⟨tr1', E, heq, _⟩ := loadProjects_usage_error env pre pc suf 0 e2 hue
        rw [hsplit] at hl0
        rw [hl0] at heq
        simp at heq
      · intro tr1' pre p suf err hl' hperr
        simp only [Prod.mk.injEq, Except.ok.injEq] at hl'
        obtain ⟨_, hps⟩ := hl'
        obtain ⟨tr2', E, heq, hnot⟩ := pricesPhase_fail_any env pre p suf 0 err hperr
        rw [← hps] at heq
        rw [hp0] at heq
        simp only [Prod.mk.injEq, Except.error.injEq] at heq
        obtain ⟨htr2, _⟩ := heq
        have hnot' := hnot pre.length (by omega)
        refine ⟨?_, ?_, ?_⟩
        · intro hmem
          rcases List.mem_append.mp hmem with hm | hm
          · obtain ⟨k', h' | h' | h'⟩ := hmemL hm <;> simp at h'
          · exact hnot'.1 (htr2 ▸ hm)
        · intro hmem
          rcases List.mem_append.mp hmem with hm | hm
          · obtain ⟨k', h' | h' | h'⟩ := hmemL hm <;> simp at h'
          · exact hnot'.2 (htr2 ▸ hm)
        · intro hmem
          rcases List.mem_append.mp hmem with hm | hm
          · obtain ⟨k', h' | h' | h'⟩ := hmemL hm <;> simp at h'
          · obtain ⟨k', _, h' | h' | h'⟩ := hmemP hm <;> simp at h'
      · intro pre pc suf hsplit hdet
        exfalso
        obtain ⟨tr1', E, heq, _⟩ := loadProjects_detect_none_error env pre pc suf 0 hdet
        rw [hsplit] at hl0
        rw [hl0] at heq
        simp at heq
      · intro pre pc suf u e2 hsplit hu hr
        exfalso
        obtain ⟨tr1', E, heq⟩ := loadProjects_resources_error_any env pre pc suf 0 u e2 hu hr
        rw [hsplit] at hl0
        rw [hl0] at heq
        simp at heq
    | ok qs =>
      have hrun := runMain_phases_ok env cfg tr1 ps tr2 qs hl0 hp0
      rw [h] at hrun
      simp only [Prod.mk.injEq] at hrun
      obtain ⟨htr, hres⟩ := hrun
      subst htr
      obtain ⟨hlenP, hsubP⟩ := pricesPhase_ok env ps 0 tr2 qs hp0
      have hblockP : ∀ i, i < ps.length →
          [Event.populatePrices i, Event.calculateCosts i,
            Event.calculateDiff i].Sublist tr2 := by
        intro i hi
        have := hsubP i hi
        rwa [Nat.zero_add] at this
      have hmemO : ∀ {e : Event},
          e ∈ (outputPhase env (env.toOutputFormat qs) cfg.noColor cfg.outputs 0).1 →
          ∃ k, e = .renderOutput k ∨ e = .writeOutputFile k ∨ e = .printOutput k :=
        fun {e} he => outputPhase_trace_mem env (env.toOutputFormat qs) cfg.noColor
          cfg.outputs 0 e he
      refine ⟨?_, ?_, ?_, ?_, ?_, ?_, ?_⟩
      · intro i hmem
        rcases List.mem_append.mp hmem with hm | hm
        · rcases List.mem_append.mp hm with hm' | hm'
          · have hs := loadProjects_block_sublist env cfg.projects 0 i
              (by rw [hl0]; exact hm')
            rw [hl0] at hs
            exact (hs.trans (List.sublist_append_left tr1 tr2)).trans
              (List.sublist_append_left (tr1 ++ tr2) _)
          · exfalso
            obtain ⟨k', _, h' | h' | h'⟩ := hmemP hm' <;> simp at h'
        · exfalso
          rcases (by simpa using hm :
              Event.loadResources i = Event.toOutputFormat ∨
              Event.loadResources i ∈
                (outputPhase env (env.toOutputFormat qs) cfg.noColor cfg.outputs 0).1)
            with h' | h'
          · simp at h'
          · obtain ⟨k', h'' | h'' | h''⟩ := hmemO h' <;> simp at h''
      · intro i hmem
        have hmem2 : Event.calculateCosts i ∈ tr2 ∨ Event.calculateDiff i ∈ tr2 := by
          rcases hmem with hm | hm <;> rcases List.mem_append.mp hm with hm' | hm'
          · rcases List.mem_append.mp hm' with hm'' | hm''
            · exact absurd (hmemL hm'') (by rintro ⟨k', h' | h' | h'⟩ <;> simp at h')
            · exact Or.inl hm''
          · exfalso
            rcases (by simpa using hm' :
                Event.calculateCosts i = Event.toOutputFormat ∨
                Event.calculateCosts i ∈
                  (outputPhase env (env.toOutputFormat qs) cfg.noColor cfg.outputs 0).1)
              with h' | h'
            · simp at h'
            · obtain ⟨k', h'' | h'' | h''⟩ := hmemO h' <;> simp at h''
          · rcases List.mem_append.mp hm' with hm'' | hm''
            · exact absurd (hmemL hm'') (by rintro ⟨k', h' | h' | h'⟩ <;> simp at h')
            · exact Or.inr hm''
          · exfalso
            rcases (by simpa using hm' :
                Event.calculateDiff i = Event.toOutputFormat ∨
                Event.calculateDiff i ∈
                  (outputPhase env (env.toOutputFormat qs) cfg.noColor cfg.outputs 0).1)
              with h' | h'
            · simp at h'
            · obtain ⟨k', h'' | h'' | h''⟩ := hmemO h' <;> simp at h''
        have hi : i < ps.length := by
          rcases hmem2 with hm | hm <;>
            · obtain ⟨k', hk', h' | h' | h'⟩ := hmemP hm <;> simp at h' <;> omega
        have hsP := pricesPhase_block_sublist env ps 0 i (by rw [hp0]; exact hmem2)
        rw [hp0] at hsP
        have hsL2 : [Event.loadUsage i, Event.loadResources i].Sublist tr1 :=
          ((List.Sublist.refl _).cons _).trans (hblockL i (by omega))
        exact ((hsL2.append hsP).trans (List.sublist_append_left (tr1 ++ tr2) _) :)
      · intro _ i hi
        have hsL2 : [Event.loadUsage i, Event.loadResources i].Sublist tr1 :=
          ((List.Sublist.refl _).cons _).trans (hblockL i hi)
        have hsP := hblockP i (by omega)
        have hsO : [Event.toOutputFormat].Sublist
            (Event.toOutputFormat ::
              (outputPhase env (env.toOutputFormat qs) cfg.noColor cfg.outputs 0).1) := by
          simp
        exact ((hsL2.append hsP).append hsO :)
      · intro pre pc suf e2 hsplit hue
        exfalso
        obtain ⟨tr1', E, heq, _⟩ := loadProjects_usage_error env pre pc suf 0 e2 hue
        rw [hsplit] at hl0
        rw [hl0] at heq
        simp at heq
      · intro tr1' pre p suf err hl' hperr
        exfalso
        simp only [Prod.mk.injEq, Except.ok.injEq] at hl'
        obtain ⟨_, hps⟩ := hl'
        obtain ⟨tr2', E, heq, _⟩ := pricesPhase_fail_any env pre p suf 0 err hperr
        rw [← hps] at heq
        rw [hp0] at heq
        simp at heq
      · intro pre pc suf hsplit hdet
        exfalso
        obtain ⟨tr1', E, heq, _⟩ := loadProjects_detect_none_error env pre pc suf 0 hdet
        rw [hsplit] at hl0
        rw [hl0] at heq
        simp at heq
      · intro pre pc suf u e2 hsplit hu hr
        exfalso
        obtain ⟨tr1', E, heq⟩ := loadProjects_resources_error_any env pre pc suf 0 u e2 hu hr
        rw [hsplit] at hl0
        rw [hl0] at heq
        simp at heq

/-- C6 witness: a complete one-project run through `baseEnv`. -/
theorem runMain_stage_order_witness :
    (∀ i, Event.loadResources i ∈
        ([Event.detect 0, Event.loadUsage 0, Event.loadResources 0] ++
          [Event.populatePrices 0, Event.calculateCosts 0, Event.calculateDiff 0] ++
          [Event.toOutputFormat]) →
      [Event.detect i, Event.loadUsage i, Event.loadResources i].Sublist
        ([Event.detect 0, Event.loadUsage 0, Event.loadResources 0] ++
          [Event.populatePrices 0, Event.calculateCosts 0, Event.calculateDiff 0] ++
          [Event.toOutputFormat])) ∧
    (∀ i, Event.calculateCosts i ∈
        ([Event.detect 0, Event.loadUsage 0, Event.loadResources 0] ++
          [Event.populatePrices 0, Event.calculateCosts 0, Event.calculateDiff 0] ++
          [Event.toOutputFormat]) ∨
      Event.calculateDiff i ∈
        ([Event.detect 0, Event.loadUsage 0, Event.loadResources 0] ++
          [Event.populatePrices 0, Event.calculateCosts 0, Event.calculateDiff 0] ++
          [Event.toOutputFormat]) →
      [Event.loadUsage i, Event.loadResources i, Event.populatePrices i,
        Event.calculateCosts i, Event.calculateDiff i].Sublist
        ([Event.detect 0, Event.loadUsage 0, Event.loadResources 0] ++
          [Event.populatePrices 0, Event.calculateCosts 0, Event.calculateDiff 0] ++
          [Event.toOutputFormat])) ∧
    (Event.toOutputFormat ∈
        ([Event.detect 0, Event.loadUsage 0, Event.loadResources 0] ++
          [Event.populatePrices 0, Event.calculateCosts 0, Event.calculateDiff 0] ++
          [Event.toOutputFormat]) →
      ∀ i, i < oneProjectConfig.projects.length →
      [Event.loadUsage i, Event.loadResources i, Event.populatePrices i,
        Event.calculateCosts i, Event.calculateDiff i, Event.toOutputFormat].Sublist
        ([Event.detect 0, Event.loadUsage 0, Event.loadResources 0] ++
          [Event.populatePrices 0, Event.calculateCosts 0, Event.calculateDiff 0] ++
          [Event.toOutputFormat])) ∧
    (∀ pre pc suf e, oneProjectConfig.projects = pre ++ pc :: suf →
      baseEnv.loadUsageFile pc.UsageFile = .error e →
      Event.loadResources pre.length ∉
        ([Event.detect 0, Event.loadUsage 0, Event.loadResources 0] ++
          [Event.populatePrices 0, Event.calculateCosts 0, Event.calculateDiff 0] ++
          [Event.toOutputFormat]) ∧
      (∀ k, Event.populatePrices k ∉
        ([Event.detect 0, Event.loadUsage 0, Event.loadResources 0] ++
          [Event.populatePrices 0, Event.calculateCosts 0, Event.calculateDiff 0] ++
          [Event.toOutputFormat])) ∧
      Event.toOutputFormat ∉
        ([Event.detect 0, Event.loadUsage 0, Event.loadResources 0] ++
          [Event.populatePrices 0, Event.calculateCosts 0, Event.calculateDiff 0] ++
          [Event.toOutputFormat])) ∧
    (∀ tr1 pre p suf err,
      loadProjects baseEnv oneProjectConfig.projects 0 = (tr1, .ok (pre ++ p :: suf)) →
      baseEnv.populatePrices p = .error err →
      Event.calculateCosts pre.length ∉
        ([Event.detect 0, Event.loadUsage 0, Event.loadResources 0] ++
          [Event.populatePrices 0, Event.calculateCosts 0, Event.calculateDiff 0] ++
          [Event.toOutputFormat]) ∧
      Event.calculateDiff pre.length ∉
        ([Event.detect 0, Event.loadUsage 0, Event.loadResources 0] ++
          [Event.populatePrices 0, Event.calculateCosts 0, Event.calculateDiff 0] ++
          [Event.toOutputFormat]) ∧
      Event.toOutputFormat ∉
        ([Event.detect 0, Event.loadUsage 0, Event.loadResources 0] ++
          [Event.populatePrices 0, Event.calculateCosts 0, Event.calculateDiff 0] ++
          [Event.toOutputFormat])) ∧
    (∀ pre pc suf, oneProjectConfig.projects = pre ++ pc :: suf →
      baseEnv.detect pc = none →
      Event.loadUsage pre.length ∉
        ([Event.detect 0, Event.loadUsage 0, Event.loadResources 0] ++
          [Event.populatePrices 0, Event.calculateCosts 0, Event.calculateDiff 0] ++
          [Event.toOutputFormat]) ∧
      Event.loadResources pre.length ∉
        ([Event.detect 0, Event.loadUsage 0, Event.loadResources 0] ++
          [Event.populatePrices 0, Event.calculateCosts 0, Event.calculateDiff 0] ++
          [Event.toOutputFormat]) ∧
      (∀ k, Event.populatePrices k ∉
          ([Event.detect 0, Event.loadUsage 0, Event.loadResources 0] ++
            [Event.populatePrices 0, Event.calculateCosts 0, Event.calculateDiff 0] ++
            [Event.toOutputFormat]) ∧
        Event.calculateCosts k ∉
          ([Event.detect 0, Event.loadUsage 0, Event.loadResources 0] ++
            [Event.populatePrices 0, Event.calculateCosts 0, Event.calculateDiff 0] ++
            [Event.toOutputFormat]) ∧
        Event.calculateDiff k ∉
          ([Event.detect 0, Event.loadUsage 0, Event.loadResources 0] ++
            [Event.populatePrices 0, Event.calculateCosts 0, Event.calculateDiff 0] ++
            [Event.toOutputFormat])) ∧
      Event.toOutputFormat ∉
        ([Event.detect 0, Event.loadUsage 0, Event.loadResources 0] ++
          [Event.populatePrices 0, Event.calculateCosts 0, Event.calculateDiff 0] ++
          [Event.toOutputFormat])) ∧
    (∀ pre pc suf u e, oneProjectConfig.projects = pre ++ pc :: suf →
      baseEnv.loadUsageFile pc.UsageFile = .ok u →
      baseEnv.loadResources pc u = .error e →
      (∀ k, Event.populatePrices k ∉
          ([Event.detect 0, Event.loadUsage 0, Event.loadResources 0] ++
            [Event.populatePrices 0, Event.calculateCosts 0, Event.calculateDiff 0] ++
            [Event.toOutputFormat]) ∧
        Event.calculateCosts k ∉
          ([Event.detect 0, Event.loadUsage 0, Event.loadResources 0] ++
            [Event.populatePrices 0, Event.calculateCosts 0, Event.calculateDiff 0] ++
            [Event.toOutputFormat]) ∧
        Event.calculateDiff k ∉
          ([Event.detect 0, Event.loadUsage 0, Event.loadResources 0] ++
            [Event.populatePrices 0, Event.calculateCosts 0, Event.calculateDiff 0] ++
            [Event.toOutputFormat])) ∧
      Event.toOutputFormat ∉
        ([Event.detect 0, Event.loadUsage 0, Event.loadResources 0] ++
          [Event.populatePrices 0, Event.calculateCosts 0, Event.calculateDiff 0] ++
          [Event.toOutputFormat])) :=
  runMain_stage_order baseEnv oneProjectConfig
    ([Event.detect 0, Event.loadUsage 0, Event.loadResources 0] ++
      [Event.populatePrices 0, Event.calculateCosts 0, Event.calculateDiff 0] ++
      [Event.toOutputFormat])
    none rfl

/-- C3: every Resource built by `EIP.BuildResource` satisfies the data-model
invariant — if `NoPrice` is false it has at least one CostComponent or is
marked skipped. -/
theorem eip_build_resource_invariant (r : EIP)
    (h : (r.BuildResource).NoPrice = false) :
    (r.BuildResource).CostComponents ≠ [] ∨ (r.BuildResource).IsSkipped = true := by
  unfold EIP.BuildResource at h ⊢
  split at h <;> simp_all

/-- C3 witness: the invariant instantiated at the all-empty EIP. -/
theorem eip_build_resource_invariant_witness :
    (EIP.BuildResource {}).CostComponents ≠ [] ∨ (EIP.BuildResource {}).IsSkipped = true :=
  eip_build_resource_invariant {} (by decide)

/-- C4: an EIP with empty `CustomerOwnedIPv4Pool`, `Instance` and
`NetworkInterface` builds a Resource with exactly one CostComponent, named
"IP address (if unused)", unit "hours", unit multiplier 1, hourly quantity 1
set and monthly quantity unset. -/
theorem eip_unattached_component (r : EIP)
    (h1 : r.CustomerOwnedIPv4Pool = "") (h2 : r.Instance = "")
    (h3 : r.NetworkInterface = "") :
    (r.BuildResource).CostComponents.length = 1 ∧
    ∀ c ∈ (r.BuildResource).CostComponents,
      c.Name = "IP address (if unused)" ∧ c.Unit = "hours" ∧
      c.UnitMultiplier = 1 ∧ c.HourlyQuantity = some 1 ∧ c.MonthlyQuantity = none := by
  simp [EIP.BuildResource, h1, h2, h3, decimalPtr]

/-- C4 witness: the unattached-EIP component shape at the all-empty EIP. -/
theorem eip_unattached_component_witness :
    (EIP.BuildResource {}).CostComponents.length = 1 ∧
    ∀ c ∈ (EIP.BuildResource {}).CostComponents,
      c.Name = "IP address (if unused)" ∧ c.Unit = "hours" ∧
      c.UnitMultiplier = 1 ∧ c.HourlyQuantity = some 1 ∧ c.MonthlyQuantity = none :=
  eip_unattached_component {} rfl rfl rfl

/-- C5: an EIP attached to an instance or network interface, or drawn from a
customer-owned pool, builds a Resource with `NoPrice` and `IsSkipped` both
true and no cost components. -/
theorem eip_attached_skipped (r : EIP)
    (h : r.CustomerOwnedIPv4Pool ≠ "" ∨ r.Instance ≠ "" ∨ r.NetworkInterface ≠ "") :
    (r.BuildResource).NoPrice = true ∧ (r.BuildResource).IsSkipped = true ∧
    (r.BuildResource).CostComponents = [] := by
  unfold EIP.BuildResource
  rw [if_pos h]
  exact ⟨rfl, rfl, rfl⟩

/-- C5 witness: the attached-EIP shape at an EIP bound to an instance. -/
theorem eip_attached_skipped_witness :
    (EIP.BuildResource { Instance := "i-1234" }).NoPrice = true ∧
    (EIP.BuildResource { Instance := "i-1234" }).IsSkipped = true ∧
    (EIP.BuildResource { Instance := "i-1234" }).CostComponents = [] :=
  eip_attached_skipped { Instance := "i-1234" } (by decide)

/-- C7: within one successful resolution call, two components of the project
with structurally equal filters resolve to identical `Price` (and identical
unresolved marker), and the catalog is queried for their Filter Key at most
once. -/
theorem resolver_dedup_correct (catalog : FilterKey → CatalogResult)
    (proj proj' : Project) (c1 c2 : CostComponent)
    (h1 : c1 ∈ allComponents proj) (h2 : c2 ∈ allComponents proj)
    (hk : filterKey c1 = filterKey c2)
    (hok : specPopulatePrices catalog proj = .ok proj') :
    (resolveComponent catalog c1).Price = (resolveComponent catalog c2).Price ∧
    (resolveComponent catalog c1).Unresolved = (resolveComponent catalog c2).Unresolved ∧
    filterKey c1 ∈ resolverQueries proj ∧ (resolverQueries proj).Nodup := by
  have hqueried : filterKey c1 ∈ resolverQueries proj := by
    unfold resolverQueries
    exact List.mem_dedup.mpr (List.mem_map_of_mem filterKey h1)
  have hnotinv : catalog (filterKey c1) ≠ CatalogResult.invalidCredential := by
    intro hcontra
    unfold specPopulatePrices at hok
    rw [if_pos] at hok
    · exact Except.noConfusion hok
    · exact List.any_eq_true.mpr ⟨filterKey c1, hqueried, by simp [hcontra]⟩
  refine ⟨?_, ?_, ?_⟩
  · unfold resolveComponent
    rw [hk] at hnotinv ⊢
    cases hc : catalog (filterKey c2) <;> simp_all
  · unfold resolveComponent
    rw [hk] at hnotinv ⊢
    cases hc : catalog (filterKey c2) <;> simp_all
  · exact ⟨hqueried, List.nodup_dedup _⟩

/-- C7 witness: two same-filter components of `twinProject` resolved against
`fixedCatalog`. -/
theorem resolver_dedup_correct_witness :
    (resolveComponent fixedCatalog { Name := "x" }).Price =
      (resolveComponent fixedCatalog { Name := "y" }).Price ∧
    (resolveComponent fixedCatalog { Name := "x" }).Unresolved =
      (resolveComponent fixedCatalog { Name := "y" }).Unresolved ∧
    filterKey { Name := "x" } ∈ resolverQueries twinProject ∧
    (resolverQueries twinProject).Nodup :=
  resolver_dedup_correct fixedCatalog twinProject resolvedTwinProject
    { Name := "x" } { Name := "y" }
    (by simp [allComponents, twinProject])
    (by simp [allComponents, twinProject])
    rfl
    rfl

/-- C8: for a component with a resolved price, a set hourly quantity and a
unit multiplier, the cost calculator computes `HourlyCost = p*m*q` and
`MonthlyCost = p*m*q*730` exactly, with `HOURS_PER_MONTH` the fixed constant
730, and `HourlyCost * 730 = MonthlyCost` exactly. -/
theorem calculator_hourly_roundtrip (c : CostComponent) (p m q : ℚ)
    (hp : c.Price = some p) (hm : c.UnitMultiplier = m)
    (hq : c.HourlyQuantity = some q) :
    HOURS_PER_MONTH = 730 ∧
    (componentCosts c).1 = some (p * m * q) ∧
    (componentCosts c).2 = some (p * m * q * 730) ∧
    Option.map (fun x => x * HOURS_PER_MONTH) (componentCosts c).1 = (componentCosts c).2 := by
  subst hm
  unfold componentCosts
  rw [hp, hq]
  simp [HOURS_PER_MONTH]

/-- C8 witness: the arithmetic round-trip at `p = 1/20`, `m = 2`, `q = 3`. -/
theorem calculator_hourly_roundtrip_witness :
    HOURS_PER_MONTH = 730 ∧
    (componentCosts { Price := some (1 / 20), UnitMultiplier := 2,
                      HourlyQuantity := some 3 }).1 = some (1 / 20 * 2 * 3) ∧
    (componentCosts { Price := some (1 / 20), UnitMultiplier := 2,
                      HourlyQuantity := some 3 }).2 = some (1 / 20 * 2 * 3 * 730) ∧
    Option.map (fun x => x * HOURS_PER_MONTH)
        (componentCosts { Price := some (1 / 20), UnitMultiplier := 2,
                          HourlyQuantity := some 3 }).1 =
      (componentCosts { Price := some (1 / 20), UnitMultiplier := 2,
                        HourlyQuantity := some 3 }).2 :=
  calculator_hourly_roundtrip _ (1 / 20) 2 3 rfl rfl rfl

/-- C9: `unwrapped` returns the deepest error of the Unwrap chain — it is in
the chain, its own Unwrap is nil, it is the unique such chain element, and an
error with no wrapped cause is returned unchanged (never nil). -/
theorem unwrapped_is_root_cause (e : GoError) :
    unwrapped e ∈ e.chain ∧
    (unwrapped e).unwrap = none ∧
    (∀ x ∈ e.chain, x.unwrap = none → x = unwrapped e) ∧
    (e.unwrap = none → unwrapped e = e) := by
  induction e with
  | base m => exact ⟨by simp [unwrapped, GoError.chain], rfl, by simp [GoError.chain, unwrapped], fun _ => rfl⟩
  | pricingAPI m => exact ⟨by simp [unwrapped, GoError.chain], rfl, by simp [GoError.chain, unwrapped], fun _ => rfl⟩
  | wrap m c ih =>
    refine ⟨?_, ?_, ?_, ?_⟩
    · simpa [unwrapped, GoError.chain] using Or.inr ih.1
    · simpa [unwrapped] using ih.2.1
    · intro x hx hu
      rcases (by simpa [GoError.chain] using hx : x = GoError.wrap m c ∨ x ∈ c.chain) with h | h
      · subst h; simp [GoError.unwrap] at hu
      · simpa [unwrapped] using ih.2.2.1 x h hu
    · intro h; simp [GoError.unwrap] at h

/-- C9 witness: the root cause of a doubly wrapped error. -/
theorem unwrapped_is_root_cause_witness :
    unwrapped (GoError.wrap "outer" (.wrap "inner" (.base "cause"))) ∈
      (GoError.wrap "outer" (.wrap "inner" (.base "cause"))).chain ∧
    (unwrapped (GoError.wrap "outer" (.wrap "inner" (.base "cause")))).unwrap = none ∧
    (∀ x ∈ (GoError.wrap "outer" (.wrap "inner" (.base "cause"))).chain,
      x.unwrap = none → x = unwrapped (GoError.wrap "outer" (.wrap "inner" (.base "cause")))) ∧
    ((GoError.wrap "outer" (.wrap "inner" (.base "cause"))).unwrap = none →
      unwrapped (GoError.wrap "outer" (.wrap "inner" (.base "cause"))) =
        GoError.wrap "outer" (.wrap "inner" (.base "cause"))) :=
  unwrapped_is_root_cause (GoError.wrap "outer" (.wrap "inner" (.base "cause")))

/-- C10: `loadRunFlags` exits with a usage error exactly when the config-file
flag is set together with one of the project flags (path,
terraform-plan-flags, usage-file); config-file together with only the output
flags (format, show-skipped) proceeds. -/
theorem loadRunFlags_config_file_exclusivity (f : RunFlags) :
    ((loadRunFlags f).isUsageError = true ↔
      (f.configFileChanged = true ∧
        (f.pathChanged = true ∨ f.terraformPlanFlagsChanged = true ∨
          f.usageFileChanged = true))) ∧
    (f.configFileChanged = true → f.pathChanged = false →
      f.terraformPlanFlagsChanged = false → f.usageFileChanged = false →
      loadRunFlags f =
        .proceed true false (f.formatChanged || f.showSkippedChanged)) := by
  rcases f with ⟨a, b, c, d, e, g⟩
  revert a b c d e g
  decide

/-- C10 witness: config-file together with both output flags proceeds. -/
theorem loadRunFlags_config_file_exclusivity_witness :
    ((loadRunFlags { configFileChanged := true, formatChanged := true,
                     showSkippedChanged := true }).isUsageError = true ↔
      (({ configFileChanged := true, formatChanged := true,
          showSkippedChanged := true } : RunFlags).configFileChanged = true ∧
        (({ configFileChanged := true, formatChanged := true,
            showSkippedChanged := true } : RunFlags).pathChanged = true ∨
          ({ configFileChanged := true, formatChanged := true,
             showSkippedChanged := true } : RunFlags).terraformPlanFlagsChanged = true ∨
          ({ configFileChanged := true, formatChanged := true,
             showSkippedChanged := true } : RunFlags).usageFileChanged = true))) ∧
    (({ configFileChanged := true, formatChanged := true,
        showSkippedChanged := true } : RunFlags).configFileChanged = true →
      ({ configFileChanged := true, formatChanged := true,
         showSkippedChanged := true } : RunFlags).pathChanged = false →
      ({ configFileChanged := true, formatChanged := true,
         showSkippedChanged := true } : RunFlags).terraformPlanFlagsChanged = false →
      ({ configFileChanged := true, formatChanged := true,
         showSkippedChanged := true } : RunFlags).usageFileChanged = false →
      loadRunFlags { configFileChanged := true, formatChanged := true,
                     showSkippedChanged := true } =
        .proceed true false
          (({ configFileChanged := true, formatChanged := true,
              showSkippedChanged := true } : RunFlags).formatChanged ||
            ({ configFileChanged := true, formatChanged := true,
               showSkippedChanged := true } : RunFlags).showSkippedChanged)) :=
  loadRunFlags_config_file_exclusivity
    { configFileChanged := true, formatChanged := true, showSkippedChanged := true }

end Infracost
